import Mathlib

/-!
# The command `podman rm` (cmd/podman/rm.go)

A shallow embedding of `rmCmd` and a development of its properties.

* Every call that leaves `rmCmd` (flag validation, the container runtime, the
  two output streams, the worker pool) appends an `Event` to a log, so that
  "is called", "exactly once" and "after" are statements about that log.
* The container runtime is external.  What each of its calls returns is given
  by `Externals`; a call may answer differently depending on everything that
  happened before it, so every runtime call receives the log so far.
* Go closures capture variables, not values.  The one variable of `rmCmd`
  that a closure captures and that changes afterwards is the range variable
  `container` of the loop at line 98; it lives in `State.container`.
* `parallelExecuteWorkerPool` is defined in another file of the package.
  `rmCmd` takes the pool as an argument, and `parallelExecuteWorkerPool`
  below is the pool of the specification.
* Go leaves the iteration order of a map unspecified, and the specification
  leaves the interleaving of the workers and the order of the final merge
  unspecified.  Each such choice is driven by a list of numbers (`iter`,
  `sched`, `merge`) over which the theorems quantify.  The enumerations of a
  map obtained this way are exactly its permutations (`orderBy_perm`,
  `orderBy_onto`).
* Concurrency is interleaving: an operation runs as one step, and the
  schedule decides which worker takes the next step.  With a limit of 1 the
  units run in submission order (`poolOrder_sequential`); with a limit of at
  least the number of units every order of execution is the order of some
  schedule (`poolOrder_onto`).
* `getContext()` and the `ctx` it returns play no part in what `rmCmd`
  decides and are left out.
-/

namespace Podman

/-! ## Errors -/

/-- A Go `error` value: either an error with a text of its own, or an error
wrapped with a message by `errors.Wrapf`. -/
inductive Err where
  | text (msg : String)
  | wrap (cause : Err) (msg : String)
deriving DecidableEq, Repr

/-- The method `Error()`: the text of an error.  A wrapped error prints as
`message: cause` (github.com/pkg/errors). -/
def Err.Error : Err → String
  | .text msg => msg
  | .wrap cause msg => msg ++ ": " ++ cause.Error

/-- The call `errors.Errorf(msg)`. -/
def errors.Errorf (msg : String) : Err := .text msg

/-- The call `errors.Wrapf(err, msg)` with the message already formatted. -/
def errors.Wrapf (err : Err) (msg : String) : Err := .wrap err msg

/-! ## Containers, context, events -/

/-- A `*libpod.Container`: the object the pointer refers to and the container
ID that its method `ID()` returns. -/
structure Container where
  ref : Nat
  id : String
deriving DecidableEq, Repr

/-- The method `container.ID()`. -/
def Container.ID (container : Container) : String := container.id

/-- The `*cli.Context` as far as `rmCmd` reads it: the positional arguments
`c.Args()` and the boolean flags `c.Bool(name)`. -/
structure Context where
  Args : List String
  Bool : String → Bool

/-- Everything `rmCmd` does that is visible outside it.  `Stdout text` is one
call `fmt.Println(text)` and `Stderr text` one call
`fmt.Fprintln(os.Stderr, text)`: the text is written followed by a newline. -/
inductive Event where
  | validateFlags
  | GetRuntime
  | Shutdown (force : Bool)
  | GetContainers
  | GetLatestContainer
  | LookupContainer (idOrName : String)
  | RemoveContainer (ctr : Container) (force : Bool)
  | parallelExecuteWorkerPool (workers : Int) (containerIDs : List String)
  | Stdout (text : String)
  | Stderr (text : String)
deriving DecidableEq, Repr

/-- The results of the calls `rmCmd` makes to code outside rm.go.  The runtime
calls receive the log of what happened before them. -/
structure Externals where
  validateFlags : Context → Option Err
  GetRuntime : Context → Option Err
  GetContainers : List Event → Except Err (List Container)
  GetLatestContainer : List Event → Except Err Container
  LookupContainer : List Event → String → Except Err Container
  RemoveContainer : List Event → Container → Bool → Option Err

/-- The mutable state a closure of `rmCmd` runs against: the range variable
`container` of the loop at line 98 (one variable for the whole loop) and the
event log. -/
structure State where
  container : Option Container
  log : List Event
deriving DecidableEq, Repr

/-- Append an event to the log. -/
def State.emit (st : State) (e : Event) : State :=
  { st with log := st.log ++ [e] }

/-- The type `pFunc`, `func() error`: a closure, run against the state. -/
abbrev pFunc := State → Option Err × State

/-- The struct `workerInput` built at lines 103-106. -/
structure workerInput where
  containerID : String
  parallelFunc : pFunc

/-- The `map[string]error` the pool returns: the entries of the map.  A `nil`
error is `none`. -/
abbrev ResultSet := List (String × Option Err)

/-- The pool as `rmCmd` sees it: worker count and work units in, results out. -/
abbrev Pool := Int → List workerInput → State → ResultSet × State

/-! ## Choice sequences -/

/-- Remove the element at position `i`, returning it with the rest. -/
def takeOut {α : Type} : Nat → List α → Option (α × List α)
  | _, [] => none
  | 0, a :: l => some (a, l)
  | i + 1, a :: l => (takeOut i l).map fun p => (p.1, a :: p.2)

/-- Enumerate `l` in the order chosen by `picks`: each pick, reduced modulo
the number of elements left, selects the next element (pick 0 once `picks` is
used up).  `fuel` is the number of elements still to enumerate. -/
def orderByFuel {α : Type} : Nat → List Nat → List α → List α
  | 0, _, _ => []
  | fuel + 1, picks, l =>
    match takeOut (picks.headD 0 % l.length) l with
    | none => []
    | some (a, rest) => a :: orderByFuel fuel picks.tail rest

/-- An arbitrary enumeration of `l`, chosen by `picks`. -/
def orderBy {α : Type} (picks : List Nat) (l : List α) : List α :=
  orderByFuel l.length picks l

/-! ## `rmCmd` -/

/-- The call `runtime.RemoveContainer(ctx, container, force)`. -/
def RemoveContainer (X : Externals) (container : Container) (force : Bool) (st : State) :
    Option Err × State :=
  (X.RemoveContainer st.log container force, st.emit (.RemoveContainer container force))

/-- Lines 87-95: look up every argument; a failed lookup is printed to
standard error and remembered in `lastError`, and the loop continues. -/
def lookupLoop (X : Externals) :
    List String → List Container → Option Err → State → List Container × Option Err × State
  | [], delContainers, lastError, st => (delContainers, lastError, st)
  | i :: rest, delContainers, lastError, st =>
    match X.LookupContainer st.log i with
    | .error err =>
      lookupLoop X rest delContainers
        (some (errors.Wrapf err ("unable to find container " ++ i)))
        ((st.emit (.LookupContainer i)).emit (.Stderr err.Error))
    | .ok container =>
      lookupLoop X rest (delContainers ++ [container]) lastError (st.emit (.LookupContainer i))

/-- Lines 75-96: the containers selected for deletion, with `lastError`. -/
def selectContainers (X : Externals) (c : Context) (st : State) :
    Except Err (List Container × Option Err) × State :=
  if c.Bool "all" then
    match X.GetContainers st.log with
    | .error err =>
      (.error (errors.Wrapf err "unable to get container list"), st.emit .GetContainers)
    | .ok delContainers => (.ok (delContainers, none), st.emit .GetContainers)
  else if c.Bool "latest" then
    match X.GetLatestContainer st.log with
    | .error err =>
      (.error (errors.Wrapf err "unable to get latest container"), st.emit .GetLatestContainer)
    | .ok lastCtr => (.ok ([lastCtr], none), st.emit .GetLatestContainer)
  else
    match lookupLoop X c.Args [] none st with
    | (delContainers, lastError, st1) => (.ok (delContainers, lastError), st1)

/-- The closure `f` of lines 99-101.  It reads the variable `container` and
the flag `--force` when it is called, not when it is created. -/
def deleteFunc (X : Externals) (c : Context) : pFunc := fun st =>
  match st.container with
  | some container => RemoveContainer X container (c.Bool "force") st
  | none => (none, st)

/-- Lines 98-107: each iteration assigns the next element to the range
variable `container`, evaluates `container.ID()` and appends a work unit with
that ID and the closure `f`. -/
def buildDeleteFuncs (X : Externals) (c : Context) :
    List Container → List workerInput → State → List workerInput × State
  | [], deleteFuncs, st => (deleteFuncs, st)
  | container :: rest, deleteFuncs, st =>
    let st1 : State := { st with container := some container }
    buildDeleteFuncs X c rest
      (deleteFuncs ++ [{ containerID := container.ID, parallelFunc := deleteFunc X c }]) st1

/-- Lines 66-107: everything between the acquisition of the runtime and the
call of the pool.  Either an early return with an error, or the work units
and `lastError` with which the pool call is reached. -/
def beforePool (X : Externals) (c : Context) (st : State) :
    Except Err (List workerInput × Option Err) × State :=
  if c.Bool "latest" && c.Bool "all" then
    (.error (errors.Errorf "--all and --latest cannot be used together"), st)
  else if c.Args.length == 0 && !c.Bool "all" && !c.Bool "latest" then
    (.error (errors.Errorf "specify one or more containers to remove"), st)
  else
    match selectContainers X c st with
    | (.error err, st1) => (.error err, st1)
    | (.ok (delContainers, lastError), st1) =>
      match buildDeleteFuncs X c delContainers [] st1 with
      | (deleteFuncs, st2) => (.ok (deleteFuncs, lastError), st2)

/-- Lines 110-117 over the entries in the order the map yields them: an error
is printed and becomes `lastError`; otherwise the container ID is printed. -/
def reportLoop : List (String × Option Err) → Option Err → State → Option Err × State
  | [], lastError, st => (lastError, st)
  | (cid, result) :: rest, lastError, st =>
    match result with
    | some err => reportLoop rest (some err) (st.emit (.Stdout err.Error))
    | none => reportLoop rest lastError (st.emit (.Stdout cid))

/-- Line 109: the call `parallelExecuteWorkerPool(rt.NumCPU()*3, deleteFuncs)`. -/
def poolCall (pool : Pool) (NumCPU : Int) (deleteFuncs : List workerInput) (st : State) :
    ResultSet × State :=
  pool (NumCPU * 3) deleteFuncs
    (st.emit (.parallelExecuteWorkerPool (NumCPU * 3) (deleteFuncs.map (·.containerID))))

/-- Lines 109-118: call the pool, report its results in the map order chosen
by `iter`, return `lastError`. -/
def poolAndReport (pool : Pool) (NumCPU : Int) (iter : List Nat)
    (deleteFuncs : List workerInput) (lastError : Option Err) (st : State) :
    Option Err × State :=
  match poolCall pool NumCPU deleteFuncs st with
  | (deleteErrors, st1) => reportLoop (orderBy iter deleteErrors) lastError st1

/-- Lines 66-118: the body of `rmCmd` after the runtime has been acquired. -/
def rmBody (X : Externals) (pool : Pool) (NumCPU : Int) (iter : List Nat) (c : Context)
    (st : State) : Option Err × State :=
  match beforePool X c st with
  | (.error err, st1) => (some err, st1)
  | (.ok (deleteFuncs, lastError), st1) => poolAndReport pool NumCPU iter deleteFuncs lastError st1

/-- The state in which the body of `rmCmd` starts once flag validation and
runtime acquisition have succeeded. -/
def acquired : State := { container := none, log := [.validateFlags, .GetRuntime] }

/-- The function `rmCmd`: the returned error and the log of the invocation.
The deferred `runtime.Shutdown(false)` of line 64 runs when the body returns. -/
def rmCmd (X : Externals) (pool : Pool) (NumCPU : Int) (iter : List Nat) (c : Context) :
    Option Err × List Event :=
  match X.validateFlags c with
  | some err => (some err, [.validateFlags])
  | none =>
    match X.GetRuntime c with
    | some err => (some (errors.Wrapf err "could not get runtime"), [.validateFlags, .GetRuntime])
    | none =>
      match rmBody X pool NumCPU iter c acquired with
      | (lastError, st) => (lastError, st.log ++ [.Shutdown false])

/-! ## The worker pool of the specification -/

/-- Modelled from the spec: writing an entry of the ResultSet.  An existing
key is overwritten (last writer wins), a new key is added. -/
def ResultSet.insert : ResultSet → String → Option Err → ResultSet
  | [], k, v => [(k, v)]
  | (k1, v1) :: m, k, v => if k1 = k then (k, v) :: m else (k1, v1) :: ResultSet.insert m k v

/-- Insert a list of entries one after the other. -/
def ResultSet.insertAll (m : ResultSet) (entries : List (String × Option Err)) : ResultSet :=
  entries.foldl (fun m kv => ResultSet.insert m kv.1 kv.2) m

/-- The outcome stored under a key, if any. -/
def ResultSet.get? : ResultSet → String → Option (Option Err)
  | [], _ => none
  | (k1, v1) :: m, k => if k1 = k then some v1 else ResultSet.get? m k

/-- The keys of a result map. -/
def ResultSet.keys (m : ResultSet) : List String := m.map Prod.fst

/-- Apply `f` to the element at position `j`. -/
def modifyAt {α : Type} (f : α → α) : Nat → List α → List α
  | _, [] => []
  | 0, a :: l => f a :: l
  | j + 1, a :: l => a :: modifyAt f j l

/-- Modelled from the spec: the static round-robin partition of the unit
list.  Deal the units, starting with unit number `i`, onto the lanes, unit
number `i` going to lane `i % lanes.length`. -/
def deal {α : Type} : Nat → List α → List (List α) → List (List α)
  | _, [], lanes => lanes
  | i, u :: us, lanes => deal (i + 1) us (modifyAt (· ++ [u]) (i % lanes.length) lanes)

/-- The number of lanes that still have work. -/
def activeLanes {α : Type} (todo : List (List α)) : Nat :=
  (todo.filter fun lane => !lane.isEmpty).length

/-- Take the next unit of the `p`-th lane that still has work: the index of
that lane, the unit, and the lanes that remain. -/
def pop {α : Type} : Nat → List (List α) → Option (Nat × α × List (List α))
  | _, [] => none
  | p, [] :: lanes => (pop p lanes).map fun r => (r.1 + 1, r.2.1, [] :: r.2.2)
  | 0, (u :: us) :: lanes => some (0, u, us :: lanes)
  | p + 1, (u :: us) :: lanes => (pop p lanes).map fun r => (r.1 + 1, r.2.1, (u :: us) :: r.2.2)

/-- Modelled from the spec: the parallel phase of the pool.  At every step the
schedule picks one of the workers that still have work; that worker invokes
the operation of its next unit and appends the identity and the outcome to
its own buffer.  Whether the outcome is an error plays no part in what
happens next. -/
def runWorkers : Nat → List Nat → List (List workerInput) → List ResultSet → State →
    List ResultSet × State
  | 0, _, _, bufs, st => (bufs, st)
  | fuel + 1, sched, todo, bufs, st =>
    match pop (sched.headD 0 % activeLanes todo) todo with
    | none => (bufs, st)
    | some (j, u, todo1) =>
      match u.parallelFunc st with
      | (outcome, st1) =>
        runWorkers fuel sched.tail todo1 (modifyAt (· ++ [(u.containerID, outcome)]) j bufs) st1

/-- Modelled from the spec: the concurrency limit, clamped to at least 1. -/
def clampLimit (concurrencyLimit : Int) : Nat :=
  if concurrencyLimit < 1 then 1 else concurrencyLimit.toNat

/-- Modelled from the spec: the merge after the join.  The private buffers of
the workers are written into one result map, worker by worker in the order
chosen by `merge`. -/
def mergeBuffers (merge : List Nat) (bufs : List ResultSet) : ResultSet :=
  ResultSet.insertAll [] (orderBy merge bufs).flatten

/-- Modelled from the spec: the function `parallelExecuteWorkerPool(workers,
functions)`, which is defined outside rm.go.  Following section 4.1 of the
specification (`Run`): the limit is clamped to at least 1; an empty unit list
returns the empty map at once; otherwise the units are partitioned round-robin
into as many lanes as the limit, one worker per lane processes its lane in
order, every worker records its results privately, and after all workers have
finished the buffers are merged into the result map.  `sched` chooses the
interleaving of the workers and `merge` the order of the merge. -/
def parallelExecuteWorkerPool (sched merge : List Nat) : Pool :=
  fun workers functions st =>
    match functions with
    | [] => ([], st)
    | _ :: _ =>
      let limit := clampLimit workers
      let todo := deal 0 functions (List.replicate limit [])
      match runWorkers functions.length sched todo (List.replicate limit []) st with
      | (bufs, st1) => (mergeBuffers merge bufs, st1)

/-- The order in which `runWorkers` invokes the units: the same walk over the
lanes, without running anything. -/
def executionOrder {α : Type} : Nat → List Nat → List (List α) → List α
  | 0, _, _ => []
  | fuel + 1, sched, todo =>
    match pop (sched.headD 0 % activeLanes todo) todo with
    | none => []
    | some (_, u, todo1) => u :: executionOrder fuel sched.tail todo1

/-- Invoke the operations of the units one after the other in the given
order, each exactly once, whatever the earlier ones returned; the identities
paired with the outcomes, and the final state. -/
def runSeq : List workerInput → State → ResultSet × State
  | [], st => ([], st)
  | u :: us, st =>
    match u.parallelFunc st with
    | (outcome, st1) =>
      match runSeq us st1 with
      | (rest, st2) => ((u.containerID, outcome) :: rest, st2)

/-! ## Vocabulary of the statements -/

/-- The text the reporting loop has to print for an entry: the identity when
the outcome is success, the text of the error when it is an error. -/
def reportLine (entry : String × Option Err) : String :=
  match entry.2 with
  | some err => err.Error
  | none => entry.1

/-- The outcome of the last failing entry in an enumeration of the entries. -/
def lastFailure (entries : List (String × Option Err)) : Option Err :=
  (entries.filterMap Prod.snd).getLast?

/-- The arguments paired with the results of their lookups, in argument
order, starting from the log `log`: each lookup sees the lookups before it,
and the message a failed lookup left on standard error. -/
def lookups (X : Externals) : List String → List Event → List (String × Except Err Container)
  | [], _ => []
  | i :: rest, log =>
    match X.LookupContainer log i with
    | .error err =>
      (i, .error err) :: lookups X rest (log ++ [.LookupContainer i, .Stderr err.Error])
    | .ok container => (i, .ok container) :: lookups X rest (log ++ [.LookupContainer i])

/-- The container a lookup found, if it succeeded. -/
def found (r : String × Except Err Container) : Option Container :=
  match r.2 with
  | .ok container => some container
  | .error _ => none

/-- The error a lookup failed with, wrapped as `unable to find container <arg>`. -/
def notFound (r : String × Except Err Container) : Option Err :=
  match r.2 with
  | .ok _ => none
  | .error err => some (errors.Wrapf err ("unable to find container " ++ r.1))

/-- The argument of a lookup event. -/
def lookedUp : Event → Option String
  | .LookupContainer i => some i
  | _ => none

/-- The text an event hands to `fmt.Println`. -/
def printed : Event → Option String
  | .Stdout line => some line
  | _ => none

/-- The events one lookup leaves in the log: the call, and for a failed
lookup the line on standard error. -/
def lookupEvents (r : String × Except Err Container) : List Event :=
  match r.2 with
  | .ok _ => [.LookupContainer r.1]
  | .error err => [.LookupContainer r.1, .Stderr err.Error]

/-- The work unit lines 99-106 build for a container: its ID and the closure. -/
def unitFor (X : Externals) (c : Context) (container : Container) : workerInput :=
  { containerID := container.ID, parallelFunc := deleteFunc X c }

/-! ## Concrete scenarios -/

/-- A host without containers: every lookup fails, the container list is
empty, there is no latest container. -/
def emptyHost : Externals where
  validateFlags := fun _ => none
  GetRuntime := fun _ => none
  GetContainers := fun _ => .ok []
  GetLatestContainer := fun _ => .error (.text "no containers")
  LookupContainer := fun _ i => .error (.text ("no container " ++ i))
  RemoveContainer := fun _ _ _ => none

/-- The command line `podman rm x`. -/
def rmX : Context := { Args := ["x"], Bool := fun _ => false }

/-- The command line `podman rm --all`. -/
def rmAll : Context := { Args := [], Bool := fun name => name == "all" }

/-- The order in which the pool of the specification invokes the units, for
a schedule, a limit and a unit list. -/
def poolOrder (sched : List Nat) (workers : Int) (units : List workerInput) : List workerInput :=
  executionOrder units.length sched (deal 0 units (List.replicate (clampLimit workers) []))

/-- A work unit whose operation records that it ran (as the removal of a
container with that ID) and returns `outcome`. -/
def unitReturning (cid : String) (outcome : Option Err) : workerInput :=
  { containerID := cid
    parallelFunc := fun st => (outcome, st.emit (.RemoveContainer ⟨0, cid⟩ false)) }

/-- The scenario of the specification: `c1` succeeds, `c2` fails with "busy",
`c3` succeeds. -/
def scenario : List workerInput :=
  [unitReturning "c1" none, unitReturning "c2" (some (.text "busy")), unitReturning "c3" none]

/-- A state with an empty log. -/
def idle : State := { container := none, log := [] }

/-- Whether an event is a call of `runtime.Shutdown`. -/
def isShutdown : Event → Bool
  | .Shutdown _ => true
  | _ => false

/-- Whether an event is a call of `libpodruntime.GetRuntime`. -/
def isGetRuntime : Event → Bool
  | .GetRuntime => true
  | _ => false

/-- A host with two containers, `a` with ID `id1` and `b` with ID `id2`.
Removing a container that has already been removed fails. -/
def twoContainers : Externals where
  validateFlags := fun _ => none
  GetRuntime := fun _ => none
  GetContainers := fun _ => .ok [⟨1, "id1"⟩, ⟨2, "id2"⟩]
  GetLatestContainer := fun _ => .ok ⟨2, "id2"⟩
  LookupContainer := fun _ i =>
    if i = "a" then .ok ⟨1, "id1"⟩
    else if i = "b" then .ok ⟨2, "id2"⟩
    else .error (.text ("no container " ++ i))
  RemoveContainer := fun log container force =>
    if Event.RemoveContainer container force ∈ log then some (.text ("no container " ++ container.id))
    else none

/-- The command line `podman rm a b`. -/
def rmAB : Context := { Args := ["a", "b"], Bool := fun _ => false }

/-- The command line `podman rm a x`. -/
def rmAX : Context := { Args := ["a", "x"], Bool := fun _ => false }

/-- A host with three containers whose IDs are `c1`, `c2` and `c3`. -/
def threeContainers : Externals where
  validateFlags := fun _ => none
  GetRuntime := fun _ => none
  GetContainers := fun _ => .ok [⟨1, "c1"⟩, ⟨2, "c2"⟩, ⟨3, "c3"⟩]
  GetLatestContainer := fun _ => .ok ⟨3, "c3"⟩
  LookupContainer := fun _ i => .error (.text ("no container " ++ i))
  RemoveContainer := fun _ _ _ => none

/-- A pool that returns the result map of the scenario of the specification,
`c1` and `c3` removed, `c2` failed with "busy". -/
def scenarioPool : Pool :=
  fun _ _ st => ([("c1", none), ("c2", some (.text "busy")), ("c3", none)], st)

/-- The newline character. -/
def newline : Char := Char.ofNat 10

/-- What the calls of `fmt.Println` recorded in a log write to standard
output: the text of every call, each followed by a newline. -/
def stdoutOf (log : List Event) : List Char :=
  (log.filterMap printed).flatMap fun text => text.data ++ [newline]

/-- Split an output into lines, `cur` being the line under way: a newline
ends a line; what follows the last newline is a line if it is not empty. -/
def splitLines : List Char → List Char → List (List Char)
  | cur, [] => if cur = [] then [] else [cur]
  | cur, ch :: rest => if ch = newline then cur :: splitLines [] rest else splitLines (cur ++ [ch]) rest

/-- The lines of an output. -/
def linesOf (out : List Char) : List (List Char) := splitLines [] out

/-- The command line `podman rm a`. -/
def rmA : Context := { Args := ["a"], Bool := fun _ => false }

/-- A host with one container, `a` with ID `id1`, whose removal fails with an
error whose text has two lines. -/
def diskFullHost : Externals where
  validateFlags := fun _ => none
  GetRuntime := fun _ => none
  GetContainers := fun _ => .ok [⟨1, "id1"⟩]
  GetLatestContainer := fun _ => .ok ⟨1, "id1"⟩
  LookupContainer := fun _ i =>
    if i = "a" then .ok ⟨1, "id1"⟩ else .error (.text ("no container " ++ i))
  RemoveContainer := fun _ _ _ => some (.text "disk\nfull")

/-! # Properties -/

/-! ## Choice sequences enumerate exactly the permutations -/

theorem takeOut_perm {α : Type} : ∀ (i : Nat) (l : List α) (a : α) (r : List α),
    takeOut i l = some (a, r) → l.Perm (a :: r)
  | _, [], _, _, h => by simp [takeOut] at h
  | 0, b :: l, a, r, h => by
    simp only [takeOut, Option.some.injEq, Prod.mk.injEq] at h
    obtain ⟨rfl, rfl⟩ := h
    exact List.Perm.refl _
  | i + 1, b :: l, a, r, h => by
    simp only [takeOut, Option.map_eq_some'] at h
    obtain ⟨⟨a1, r1⟩, h1, h2⟩ := h
    simp only [Prod.mk.injEq] at h2
    obtain ⟨rfl, rfl⟩ := h2
    exact ((takeOut_perm i l a1 r1 h1).cons b).trans (List.Perm.swap _ _ _)

theorem takeOut_lt {α : Type} : ∀ (i : Nat) (l : List α), i < l.length →
    ∃ a r, takeOut i l = some (a, r)
  | _, [], h => by simp at h
  | 0, b :: l, _ => ⟨b, l, rfl⟩
  | i + 1, b :: l, h => by
    obtain ⟨a, r, h1⟩ := takeOut_lt i l (by simpa using h)
    exact ⟨a, b :: r, by simp [takeOut, h1]⟩

theorem takeOut_of_mem {α : Type} (a : α) : ∀ (l : List α), a ∈ l →
    ∃ i r, i < l.length ∧ takeOut i l = some (a, r)
  | [], h => by simp at h
  | b :: l, h => by
    rcases List.mem_cons.1 h with rfl | h1
    · exact ⟨0, l, by simp, rfl⟩
    · obtain ⟨i, r, hi, h2⟩ := takeOut_of_mem a l h1
      exact ⟨i + 1, b :: r, by simpa using hi, by simp [takeOut, h2]⟩

theorem orderByFuel_perm {α : Type} : ∀ (fuel : Nat) (picks : List Nat) (l : List α),
    l.length = fuel → (orderByFuel fuel picks l).Perm l
  | 0, _, l, h => by
    have : l = [] := List.length_eq_zero.1 h
    subst this
    exact List.Perm.refl _
  | fuel + 1, picks, l, h => by
    have hpos : 0 < l.length := by omega
    obtain ⟨a, r, h1⟩ := takeOut_lt (picks.headD 0 % l.length) l (Nat.mod_lt _ hpos)
    have hp := takeOut_perm _ _ _ _ h1
    have hlen : r.length = fuel := by
      have := hp.length_eq
      simp at this
      omega
    simp only [orderByFuel, h1]
    exact ((orderByFuel_perm fuel picks.tail r hlen).cons a).trans hp.symm

theorem orderBy_perm {α : Type} (picks : List Nat) (l : List α) : (orderBy picks l).Perm l :=
  orderByFuel_perm l.length picks l rfl

theorem orderBy_onto {α : Type} : ∀ (l1 l : List α), l1.Perm l → ∃ picks, orderBy picks l = l1
  | [], l, h => by
    have : l = [] := h.symm.eq_nil
    subst this
    exact ⟨[], rfl⟩
  | a :: t, l, h => by
    have hmem : a ∈ l := h.subset (List.mem_cons_self a t)
    obtain ⟨i, r, hi, h1⟩ := takeOut_of_mem a l hmem
    have hp := takeOut_perm _ _ _ _ h1
    have htr : t.Perm r := (h.trans hp).cons_inv
    obtain ⟨picks, h2⟩ := orderBy_onto t r htr
    refine ⟨i :: picks, ?_⟩
    have hlen : l.length = r.length + 1 := by simpa using hp.length_eq
    unfold orderBy at h2 ⊢
    rw [hlen]
    simp only [orderByFuel, List.headD_cons, List.tail_cons]
    rw [Nat.mod_eq_of_lt hi, h1]
    simp [h2]

/-! ## The reporting loop -/

theorem reportLoop_append (es : List (String × Option Err)) (p : String × Option Err) :
    ∀ (lastError : Option Err) (st : State),
      reportLoop (es ++ [p]) lastError st =
        reportLoop [p] (reportLoop es lastError st).1 (reportLoop es lastError st).2 := by
  induction es with
  | nil => intro lastError st; rfl
  | cons q es ih =>
    intro lastError st
    obtain ⟨cid, result⟩ := q
    cases result with
    | none => simp only [List.cons_append, reportLoop]; exact ih _ _
    | some err => simp only [List.cons_append, reportLoop]; exact ih _ _

theorem reportLoop_result (es : List (String × Option Err)) (lastError : Option Err) (st : State) :
    (reportLoop es lastError st).1 =
      match lastFailure es with
      | some err => some err
      | none => lastError := by
  induction es using List.reverseRecOn with
  | nil => rfl
  | append_singleton es p ih =>
    rw [reportLoop_append]
    obtain ⟨cid, result⟩ := p
    cases result with
    | none =>
      have : lastFailure (es ++ [(cid, none)]) = lastFailure es := by
        simp [lastFailure, List.filterMap_append]
      rw [this]
      simpa [reportLoop] using ih
    | some err =>
      have : lastFailure (es ++ [(cid, some err)]) = some err := by
        simp [lastFailure, List.filterMap_append]
      rw [this]
      simp [reportLoop]

theorem reportLoop_state (es : List (String × Option Err)) :
    ∀ (lastError : Option Err) (st : State),
      (reportLoop es lastError st).2 =
        { st with log := st.log ++ es.map fun p => Event.Stdout (reportLine p) } := by
  induction es with
  | nil => intro lastError st; simp [reportLoop]
  | cons q es ih =>
    intro lastError st
    obtain ⟨cid, result⟩ := q
    cases result with
    | none => simp [reportLoop, ih, State.emit, reportLine]
    | some err => simp [reportLoop, ih, State.emit, reportLine]

theorem lastFailure_isSome (es : List (String × Option Err))
    (h : ∃ entry ∈ es, entry.2 ≠ none) : ∃ err, lastFailure es = some err := by
  obtain ⟨⟨cid, result⟩, hmem, hne⟩ := h
  cases result with
  | none => exact absurd rfl hne
  | some err =>
    have hin : err ∈ es.filterMap Prod.snd := List.mem_filterMap.2 ⟨(cid, some err), hmem, rfl⟩
    cases hl : (es.filterMap Prod.snd).getLast? with
    | none =>
      rw [List.getLast?_eq_none_iff] at hl
      rw [hl] at hin
      simp at hin
    | some e => exact ⟨e, by simp [lastFailure, hl]⟩

theorem lastFailure_perm_isSome (es es1 : List (String × Option Err)) (hp : es1.Perm es)
    (h : ∃ entry ∈ es, entry.2 ≠ none) : ∃ err, lastFailure es1 = some err := by
  obtain ⟨entry, hmem, hne⟩ := h
  exact lastFailure_isSome es1 ⟨entry, hp.symm.subset hmem, hne⟩

/-! ## `rmCmd` once the pool call is reached -/

theorem rmCmd_reaching_pool (X : Externals) (pool : Pool) (NumCPU : Int) (iter : List Nat)
    (c : Context) (deleteFuncs : List workerInput) (lastError : Option Err) (st : State)
    (hv : X.validateFlags c = none) (hr : X.GetRuntime c = none)
    (hb : beforePool X c acquired = (.ok (deleteFuncs, lastError), st)) :
    rmCmd X pool NumCPU iter c =
      ((reportLoop (orderBy iter (poolCall pool NumCPU deleteFuncs st).1) lastError
          (poolCall pool NumCPU deleteFuncs st).2).1,
       (reportLoop (orderBy iter (poolCall pool NumCPU deleteFuncs st).1) lastError
          (poolCall pool NumCPU deleteFuncs st).2).2.log ++ [.Shutdown false]) := by
  simp only [rmCmd, hv, hr, rmBody, hb, poolAndReport]

/-- C2. If at least one entry of the result map that the pool returns to
`rmCmd` holds an error, `rmCmd` returns a non-nil error, whatever the order
`iter` in which the map is iterated and whatever the other entries hold. -/
theorem rmCmd_fails_when_a_removal_failed (X : Externals) (pool : Pool) (NumCPU : Int)
    (iter : List Nat) (c : Context) (deleteFuncs : List workerInput) (lastError : Option Err)
    (st : State)
    (hv : X.validateFlags c = none) (hr : X.GetRuntime c = none)
    (hb : beforePool X c acquired = (.ok (deleteFuncs, lastError), st))
    (hfail : ∃ entry ∈ (poolCall pool NumCPU deleteFuncs st).1, entry.2 ≠ none) :
    (rmCmd X pool NumCPU iter c).1 ≠ none := by
  rw [rmCmd_reaching_pool X pool NumCPU iter c deleteFuncs lastError st hv hr hb]
  obtain ⟨err, he⟩ := lastFailure_perm_isSome _ _ (orderBy_perm iter _) hfail
  simp [reportLoop_result, he]

/-! ## The lookup loop -/

theorem getLast?_cons_match {α : Type} (a : α) (l : List α) :
    (a :: l).getLast? = match l.getLast? with
      | some b => some b
      | none => some a := by
  cases l with
  | nil => rfl
  | cons b l =>
    have h : (a :: b :: l).getLast? = (b :: l).getLast? := by
      simp [List.getLast?_eq_getLast, List.getLast_cons]
    rw [h]
    cases hl : (b :: l).getLast? with
    | none => simp [List.getLast?_eq_none_iff] at hl
    | some e => rfl

theorem lookupLoop_eq (X : Externals) (args : List String) :
    ∀ (delContainers : List Container) (lastError : Option Err) (st : State),
      lookupLoop X args delContainers lastError st =
        (delContainers ++ (lookups X args st.log).filterMap found,
         (match ((lookups X args st.log).filterMap notFound).getLast? with
          | some err => some err
          | none => lastError),
         { st with log := st.log ++ (lookups X args st.log).flatMap lookupEvents }) := by
  induction args with
  | nil => intro delContainers lastError st; simp [lookupLoop, lookups]
  | cons i rest ih =>
    intro delContainers lastError st
    cases hl : X.LookupContainer st.log i with
    | error err =>
      simp only [lookupLoop, lookups, hl, ih, State.emit, List.append_assoc, List.singleton_append,
        List.filterMap_cons, found, notFound, List.flatMap_cons, lookupEvents, List.cons_append,
        List.nil_append, getLast?_cons_match]
      refine Prod.ext rfl (Prod.ext ?_ rfl)
      simp only
      cases ((lookups X rest (st.log ++ [Event.LookupContainer i, Event.Stderr err.Error])).filterMap
        notFound).getLast? <;> rfl
    | ok container =>
      simp only [lookupLoop, lookups, hl, ih, State.emit, List.append_assoc, List.singleton_append,
        List.filterMap_cons, found, notFound, List.flatMap_cons, lookupEvents, List.cons_append,
        List.nil_append]

theorem lookups_args (X : Externals) (args : List String) :
    ∀ log : List Event, (lookups X args log).map Prod.fst = args := by
  induction args with
  | nil => intro log; rfl
  | cons i rest ih =>
    intro log
    cases hl : X.LookupContainer log i <;> simp [lookups, hl, ih]

theorem lookedUp_lookupEvents (rs : List (String × Except Err Container)) :
    (rs.flatMap lookupEvents).filterMap lookedUp = rs.map Prod.fst := by
  induction rs with
  | nil => rfl
  | cons r rs ih =>
    obtain ⟨i, res⟩ := r
    cases res <;> simp [List.flatMap_cons, lookupEvents, lookedUp, List.filterMap_append,
      List.filterMap_cons, ih]

/-! ## Building the work units -/

theorem buildDeleteFuncs_eq (X : Externals) (c : Context) (delContainers : List Container) :
    ∀ (deleteFuncs : List workerInput) (st : State),
      buildDeleteFuncs X c delContainers deleteFuncs st =
        (deleteFuncs ++ delContainers.map (unitFor X c),
         { st with container := match delContainers.getLast? with
                                | some last => some last
                                | none => st.container }) := by
  induction delContainers with
  | nil => intro deleteFuncs st; simp [buildDeleteFuncs]
  | cons k rest ih =>
    intro deleteFuncs st
    simp only [buildDeleteFuncs, ih, List.append_assoc, List.singleton_append, List.map_cons,
      unitFor, getLast?_cons_match]
    refine Prod.ext rfl ?_
    simp only
    cases rest.getLast? <;> rfl

theorem selectContainers_ok (X : Externals) (c : Context) (st st1 : State)
    (delContainers : List Container) (lastError : Option Err)
    (h : selectContainers X c st = (.ok (delContainers, lastError), st1)) :
    (c.Bool "all" = true ∧ X.GetContainers st.log = .ok delContainers ∧ lastError = none
        ∧ st1 = st.emit .GetContainers)
    ∨ (c.Bool "all" = false ∧ c.Bool "latest" = true
        ∧ X.GetLatestContainer st.log = .ok (delContainers.headD ⟨0, ""⟩)
        ∧ delContainers.length = 1 ∧ lastError = none ∧ st1 = st.emit .GetLatestContainer)
    ∨ (c.Bool "all" = false ∧ c.Bool "latest" = false
        ∧ delContainers = (lookups X c.Args st.log).filterMap found
        ∧ lastError = ((lookups X c.Args st.log).filterMap notFound).getLast?
        ∧ st1 = { st with log := st.log ++ (lookups X c.Args st.log).flatMap lookupEvents }) := by
  unfold selectContainers at h
  cases hall : c.Bool "all" with
  | true =>
    simp only [hall, if_true] at h
    cases hg : X.GetContainers st.log with
    | error err => simp [hg] at h
    | ok dels =>
      simp only [hg, Prod.mk.injEq, Except.ok.injEq] at h
      obtain ⟨⟨rfl, rfl⟩, rfl⟩ := h
      exact Or.inl ⟨rfl, rfl, rfl, rfl⟩
  | false =>
    simp only [hall, Bool.false_eq_true, if_false] at h
    cases hlat : c.Bool "latest" with
    | true =>
      simp only [hlat, if_true] at h
      cases hg : X.GetLatestContainer st.log with
      | error err => simp [hg] at h
      | ok k =>
        simp only [hg, Prod.mk.injEq, Except.ok.injEq] at h
        obtain ⟨⟨rfl, rfl⟩, rfl⟩ := h
        exact Or.inr (Or.inl ⟨rfl, rfl, rfl, rfl, rfl, rfl⟩)
    | false =>
      simp only [hlat, Bool.false_eq_true, if_false, lookupLoop_eq, List.nil_append,
        Prod.mk.injEq, Except.ok.injEq] at h
      obtain ⟨⟨rfl, h2⟩, rfl⟩ := h
      refine Or.inr (Or.inr ⟨rfl, rfl, rfl, ?_, rfl⟩)
      rw [← h2]
      cases ((lookups X c.Args st.log).filterMap notFound).getLast? <;> rfl

theorem beforePool_ok (X : Externals) (c : Context) (st st2 : State)
    (deleteFuncs : List workerInput) (lastError : Option Err)
    (h : beforePool X c st = (.ok (deleteFuncs, lastError), st2)) :
    ¬ (c.Bool "latest" = true ∧ c.Bool "all" = true)
    ∧ ¬ (c.Args = [] ∧ c.Bool "all" = false ∧ c.Bool "latest" = false)
    ∧ ∃ delContainers st1,
        selectContainers X c st = (.ok (delContainers, lastError), st1)
        ∧ deleteFuncs = delContainers.map (unitFor X c)
        ∧ st2 = { st1 with container := match delContainers.getLast? with
                                          | some last => some last
                                          | none => st1.container } := by
  unfold beforePool at h
  by_cases h1 : (c.Bool "latest" && c.Bool "all") = true
  · simp [h1] at h
  · simp only [h1, Bool.false_eq_true, if_false] at h
    by_cases h2 : (c.Args.length == 0 && !c.Bool "all" && !c.Bool "latest") = true
    · simp [h2] at h
    · simp only [h2, Bool.false_eq_true, if_false] at h
      refine ⟨by simpa using h1, ?_, ?_⟩
      · intro ⟨ha, hb, hc⟩
        apply h2
        simp [ha, hb, hc]
      · rcases hs : selectContainers X c st with ⟨res, st1⟩
        rw [hs] at h
        cases res with
        | error err => simp at h
        | ok p =>
          obtain ⟨dels, le⟩ := p
          simp only [buildDeleteFuncs_eq, List.nil_append, Prod.mk.injEq, Except.ok.injEq] at h
          obtain ⟨⟨rfl, rfl⟩, rfl⟩ := h
          exact ⟨dels, st1, rfl, rfl, rfl⟩

theorem lastFailure_mem (es : List (String × Option Err)) (err : Err)
    (h : lastFailure es = some err) : ∃ entry ∈ es, entry.2 = some err := by
  have hin : err ∈ es.filterMap Prod.snd := List.mem_of_getLast?_eq_some h
  obtain ⟨entry, hmem, he⟩ := List.mem_filterMap.1 hin
  exact ⟨entry, hmem, he⟩

theorem lastFailure_none (es : List (String × Option Err))
    (h : ∀ entry ∈ es, entry.2 = none) : lastFailure es = none := by
  cases hl : lastFailure es with
  | none => rfl
  | some err =>
    obtain ⟨entry, hmem, he⟩ := lastFailure_mem es err hl
    rw [h entry hmem] at he
    cases he

/-- C10. Once `rmCmd` reaches the pool call, what it returns is: the outcome
of the last failing entry of the result map in the order the entries are
iterated, as it is (not wrapped), if an entry failed; otherwise `lastError`,
which is nil under `--all` and `--latest` and otherwise the error of the last
argument whose lookup failed, wrapped as `unable to find container <arg>`, or
nil if no lookup failed.  So when every removal succeeded the lookup failure
is returned; when a removal failed the returned error is the outcome of a
failing entry; and every failing entry is the one returned under some
iteration order. -/
theorem rmCmd_return_value (X : Externals) (pool : Pool) (NumCPU : Int)
    (iter : List Nat) (c : Context) (deleteFuncs : List workerInput) (lastError : Option Err)
    (st : State)
    (hv : X.validateFlags c = none) (hr : X.GetRuntime c = none)
    (hb : beforePool X c acquired = (.ok (deleteFuncs, lastError), st)) :
    (rmCmd X pool NumCPU iter c).1 =
        (match lastFailure (orderBy iter (poolCall pool NumCPU deleteFuncs st).1) with
         | some err => some err
         | none => lastError)
      ∧ lastError =
          (if c.Bool "all" = true ∨ c.Bool "latest" = true then none
           else ((lookups X c.Args acquired.log).filterMap notFound).getLast?)
      ∧ ((∀ entry ∈ (poolCall pool NumCPU deleteFuncs st).1, entry.2 = none) →
          (rmCmd X pool NumCPU iter c).1 = lastError)
      ∧ ((∃ entry ∈ (poolCall pool NumCPU deleteFuncs st).1, entry.2 ≠ none) →
          ∃ entry ∈ (poolCall pool NumCPU deleteFuncs st).1,
            entry.2 ≠ none ∧ (rmCmd X pool NumCPU iter c).1 = entry.2)
      ∧ (∀ cid err, (cid, some err) ∈ (poolCall pool NumCPU deleteFuncs st).1 →
          ∃ iter1, (rmCmd X pool NumCPU iter1 c).1 = some err) := by
  have hret : ∀ it, (rmCmd X pool NumCPU it c).1 =
      (match lastFailure (orderBy it (poolCall pool NumCPU deleteFuncs st).1) with
       | some err => some err
       | none => lastError) := by
    intro it
    rw [rmCmd_reaching_pool X pool NumCPU it c deleteFuncs lastError st hv hr hb]
    exact reportLoop_result _ _ _
  refine ⟨hret iter, ?_, ?_, ?_, ?_⟩
  · obtain ⟨-, -, dels, st1, hs, -, -⟩ := beforePool_ok X c acquired st deleteFuncs lastError hb
    rcases selectContainers_ok X c acquired st1 dels lastError hs with
      ⟨ha, -, hl, -⟩ | ⟨-, hlat, -, -, hl, -⟩ | ⟨ha, hlat, -, hl, -⟩
    · simp [ha, hl]
    · simp [hlat, hl]
    · simp [ha, hlat, hl]
  · intro hall
    rw [hret iter, lastFailure_none]
    intro entry hmem
    exact hall entry ((orderBy_perm iter _).subset hmem)
  · intro hfail
    obtain ⟨err, he⟩ := lastFailure_perm_isSome _ _ (orderBy_perm iter _) hfail
    obtain ⟨entry, hmem, hentry⟩ := lastFailure_mem _ _ he
    refine ⟨entry, (orderBy_perm iter _).subset hmem, by simp [hentry], ?_⟩
    rw [hret iter, he, hentry]
  · intro cid err hmem
    obtain ⟨l1, l2, hsplit⟩ := List.append_of_mem hmem
    have hp : ((l1 ++ l2) ++ [(cid, some err)]).Perm (poolCall pool NumCPU deleteFuncs st).1 := by
      rw [hsplit]
      exact (List.perm_append_singleton _ _).trans List.perm_middle.symm
    obtain ⟨iter1, h1⟩ := orderBy_onto _ _ hp
    refine ⟨iter1, ?_⟩
    rw [hret iter1, h1]
    simp [lastFailure, List.filterMap_append]

/-- C8. With valid flags and the runtime acquired, an invalid selection is
rejected before any container is touched: with `--all` and `--latest` both
set `rmCmd` returns "--all and --latest cannot be used together"; otherwise,
with no argument and neither flag set, it returns "specify one or more
containers to remove".  In both cases the whole invocation consists of the
flag validation, the acquisition and the shutdown of the runtime: nothing is
listed, looked up, removed or printed, and the pool (whichever it is) is not
called. -/
theorem rmCmd_rejects_invalid_selection (X : Externals) (pool : Pool) (NumCPU : Int)
    (iter : List Nat) (c : Context)
    (hv : X.validateFlags c = none) (hr : X.GetRuntime c = none) :
    (c.Bool "all" = true ∧ c.Bool "latest" = true →
        rmCmd X pool NumCPU iter c =
          (some (errors.Errorf "--all and --latest cannot be used together"),
           [.validateFlags, .GetRuntime, .Shutdown false]))
    ∧ (¬ (c.Bool "all" = true ∧ c.Bool "latest" = true) → c.Args = [] →
        c.Bool "all" = false → c.Bool "latest" = false →
        rmCmd X pool NumCPU iter c =
          (some (errors.Errorf "specify one or more containers to remove"),
           [.validateFlags, .GetRuntime, .Shutdown false])) := by
  constructor
  · rintro ⟨ha, hl⟩
    simp [rmCmd, hv, hr, rmBody, beforePool, ha, hl, acquired]
  · intro _ hargs ha hl
    simp [rmCmd, hv, hr, rmBody, beforePool, ha, hl, hargs, acquired]

theorem rmCmd_rejects_invalid_selection_witness :
    rmCmd emptyHost (fun _ _ st => ([], st)) 1 [] { Args := [], Bool := fun _ => false } =
      (some (errors.Errorf "specify one or more containers to remove"),
       [.validateFlags, .GetRuntime, .Shutdown false]) :=
  (rmCmd_rejects_invalid_selection emptyHost (fun _ _ st => ([], st)) 1 []
    { Args := [], Bool := fun _ => false } rfl rfl).2 (by decide) rfl rfl rfl

theorem lookups_all_failed (X : Externals) (args : List String) :
    ∀ log : List Event, args ≠ [] → (lookups X args log).filterMap found = [] →
      ((lookups X args log).filterMap notFound).getLast? ≠ none := by
  cases args with
  | nil => intro log h; exact absurd rfl h
  | cons i rest =>
    intro log _ hf
    cases hl : X.LookupContainer log i with
    | ok k => simp [lookups, hl, found] at hf
    | error err => simp [lookups, hl, notFound, List.getLast?_eq_none_iff]

/-- C4 (amended). When the list of work units `rmCmd` submits is empty and
the pool returns the empty result map, `rmCmd` prints no per-item line: after
the pool has returned only the shutdown follows.  It returns `lastError` of
the lookup phase: nil under `--all` (no container exists); without `--all`
the list is empty because every lookup failed, and `rmCmd` returns the error
of the last lookup, wrapped, which is not nil. -/
theorem rmCmd_empty_work_list (X : Externals) (pool : Pool) (NumCPU : Int)
    (iter : List Nat) (c : Context) (lastError : Option Err) (st : State)
    (hv : X.validateFlags c = none) (hr : X.GetRuntime c = none)
    (hb : beforePool X c acquired = (.ok ([], lastError), st))
    (hp : (poolCall pool NumCPU [] st).1 = []) :
    (rmCmd X pool NumCPU iter c).2 = (poolCall pool NumCPU [] st).2.log ++ [.Shutdown false]
      ∧ (rmCmd X pool NumCPU iter c).1 = lastError
      ∧ (c.Bool "all" = true → lastError = none)
      ∧ (c.Bool "all" = false →
          lastError = ((lookups X c.Args acquired.log).filterMap notFound).getLast?
          ∧ lastError ≠ none) := by
  rw [rmCmd_reaching_pool X pool NumCPU iter c [] lastError st hv hr hb, hp]
  obtain ⟨-, hsel, dels, st1, hs, hd, -⟩ := beforePool_ok X c acquired st [] lastError hb
  have hdels : dels = [] := by
    cases dels with
    | nil => rfl
    | cons k r => simp at hd
  subst hdels
  refine ⟨by simp [orderBy, orderByFuel, reportLoop], by simp [orderBy, orderByFuel, reportLoop],
    ?_, ?_⟩
  · intro ha2
    rcases selectContainers_ok X c acquired st1 [] lastError hs with
      ⟨-, -, hl, -⟩ | ⟨ha, -, -, -, -, -⟩ | ⟨ha, -, -, -, -⟩
    · exact hl
    · rw [ha] at ha2; cases ha2
    · rw [ha] at ha2; cases ha2
  · intro ha2
    rcases selectContainers_ok X c acquired st1 [] lastError hs with
      ⟨ha, -, -, -⟩ | ⟨-, -, -, hlen, -, -⟩ | ⟨ha, hlat, hfound, hl, -⟩
    · rw [ha] at ha2; cases ha2
    · simp at hlen
    · refine ⟨hl, ?_⟩
      rw [hl]
      apply lookups_all_failed X c.Args acquired.log _ hfound.symm
      intro hargs
      exact hsel ⟨hargs, ha, hlat⟩

theorem rmCmd_empty_work_list_witness :
    (rmCmd emptyHost (parallelExecuteWorkerPool [] []) 1 [] rmAll).1 = none :=
  (rmCmd_empty_work_list emptyHost (parallelExecuteWorkerPool [] []) 1 [] rmAll none
    { container := none, log := [.validateFlags, .GetRuntime, .GetContainers] }
    rfl rfl rfl rfl).2.1

/-- C4 as stated fails: for `podman rm x` on a host without container `x` the
list of work units is empty and the pool returns the empty result map, nothing
is printed on standard output, and yet `rmCmd` returns an error. -/
theorem rm_of_missing_container_fails :
    beforePool emptyHost rmX acquired =
        (.ok ([], some (errors.Wrapf (.text "no container x") "unable to find container x")),
         { container := none,
           log := [.validateFlags, .GetRuntime, .LookupContainer "x", .Stderr "no container x"] })
      ∧ (poolCall (parallelExecuteWorkerPool [] []) 1 []
          { container := none,
            log := [.validateFlags, .GetRuntime, .LookupContainer "x",
                    .Stderr "no container x"] }).1 = []
      ∧ (rmCmd emptyHost (parallelExecuteWorkerPool [] []) 1 [] rmX).2.filterMap printed = []
      ∧ (rmCmd emptyHost (parallelExecuteWorkerPool [] []) 1 [] rmX).1 =
          some (errors.Wrapf (.text "no container x") "unable to find container x")
      ∧ (rmCmd emptyHost (parallelExecuteWorkerPool [] []) 1 [] rmX).1 ≠ none := by
  refine ⟨rfl, rfl, rfl, rfl, ?_⟩
  decide

/-! ## The worker pool: lanes -/

theorem modifyAt_length {α : Type} (f : α → α) : ∀ (j : Nat) (l : List α),
    (modifyAt f j l).length = l.length
  | 0, [] => rfl
  | _ + 1, [] => rfl
  | 0, _ :: _ => rfl
  | j + 1, a :: l => by simp [modifyAt, modifyAt_length f j l]

theorem modifyAt_append_flatten {α : Type} (u : α) : ∀ (j : Nat) (l : List (List α)),
    j < l.length → (modifyAt (· ++ [u]) j l).flatten.Perm (l.flatten ++ [u])
  | _, [], h => by simp at h
  | 0, a :: l, _ => by
    simp only [modifyAt, List.flatten_cons, List.append_assoc]
    exact (List.perm_append_left_iff a).2 List.perm_append_comm
  | j + 1, a :: l, h => by
    simp only [modifyAt, List.flatten_cons, List.append_assoc]
    exact (List.perm_append_left_iff a).2 (modifyAt_append_flatten u j l (by simpa using h))

theorem deal_length {α : Type} : ∀ (us : List α) (i : Nat) (lanes : List (List α)),
    (deal i us lanes).length = lanes.length
  | [], _, _ => rfl
  | u :: us, i, lanes => by
    simp only [deal]
    rw [deal_length us, modifyAt_length]

theorem deal_flatten {α : Type} : ∀ (us : List α) (i : Nat) (lanes : List (List α)),
    0 < lanes.length → (deal i us lanes).flatten.Perm (lanes.flatten ++ us)
  | [], _, lanes, _ => by simp [deal]
  | u :: us, i, lanes, h => by
    simp only [deal]
    have h1 := deal_flatten us (i + 1) (modifyAt (· ++ [u]) (i % lanes.length) lanes)
      (by rw [modifyAt_length]; exact h)
    refine h1.trans ?_
    have h2 := modifyAt_append_flatten u (i % lanes.length) lanes (Nat.mod_lt _ h)
    refine (h2.append_right us).trans ?_
    simp

theorem activeLanes_eq_zero {α : Type} : ∀ (todo : List (List α)),
    activeLanes todo = 0 ↔ todo.flatten = []
  | [] => by simp [activeLanes]
  | [] :: todo => by
    have := activeLanes_eq_zero todo
    simp only [activeLanes] at this
    simp [activeLanes, this]
  | (u :: us) :: todo => by simp [activeLanes]

theorem pop_lt {α : Type} : ∀ (todo : List (List α)) (p : Nat), p < activeLanes todo →
    ∃ j u todo1, pop p todo = some (j, u, todo1)
  | [], p, h => by simp [activeLanes] at h
  | [] :: todo, p, h => by
    have h1 : p < activeLanes todo := by simpa [activeLanes] using h
    obtain ⟨j, u, todo1, h2⟩ := pop_lt todo p h1
    exact ⟨j + 1, u, [] :: todo1, by simp [pop, h2]⟩
  | (u :: us) :: todo, 0, _ => ⟨0, u, us :: todo, rfl⟩
  | (u :: us) :: todo, p + 1, h => by
    have h1 : p < activeLanes todo := by simpa [activeLanes] using h
    obtain ⟨j, v, todo1, h2⟩ := pop_lt todo p h1
    exact ⟨j + 1, v, (u :: us) :: todo1, by simp [pop, h2]⟩

theorem pop_some {α : Type} : ∀ (todo : List (List α)) (p j : Nat) (u : α) (todo1 : List (List α)),
    pop p todo = some (j, u, todo1) →
      todo.flatten.Perm (u :: todo1.flatten) ∧ todo1.length = todo.length ∧ j < todo.length
  | [], _, _, _, _, h => by simp [pop] at h
  | [] :: todo, p, j, u, todo1, h => by
    simp only [pop, Option.map_eq_some'] at h
    obtain ⟨⟨j1, u1, t1⟩, h1, h2⟩ := h
    simp only [Prod.mk.injEq] at h2
    obtain ⟨rfl, rfl, rfl⟩ := h2
    obtain ⟨hp, hl, hj⟩ := pop_some todo p j1 u1 t1 h1
    exact ⟨by simpa using hp, by simp [hl], by simpa using hj⟩
  | (v :: vs) :: todo, 0, j, u, todo1, h => by
    simp only [pop, Option.some.injEq, Prod.mk.injEq] at h
    obtain ⟨rfl, rfl, rfl⟩ := h
    exact ⟨by simp, by simp, by simp⟩
  | (v :: vs) :: todo, p + 1, j, u, todo1, h => by
    simp only [pop, Option.map_eq_some'] at h
    obtain ⟨⟨j1, u1, t1⟩, h1, h2⟩ := h
    simp only [Prod.mk.injEq] at h2
    obtain ⟨rfl, rfl, rfl⟩ := h2
    obtain ⟨hp, hl, hj⟩ := pop_some todo p j1 u1 t1 h1
    refine ⟨?_, by simp [hl], by simpa using hj⟩
    simp only [List.flatten_cons]
    exact (hp.append_left (v :: vs)).trans List.perm_middle

/-! ## The worker pool: execution -/

theorem executionOrder_perm {α : Type} : ∀ (fuel : Nat) (sched : List Nat) (todo : List (List α)),
    todo.flatten.length = fuel → (executionOrder fuel sched todo).Perm todo.flatten
  | 0, _, todo, h => by
    rw [List.length_eq_zero.1 h]
    exact List.Perm.refl _
  | fuel + 1, sched, todo, h => by
    have hact : 0 < activeLanes todo := by
      rcases Nat.eq_zero_or_pos (activeLanes todo) with h0 | h0
      · rw [(activeLanes_eq_zero todo).1 h0] at h
        simp at h
      · exact h0
    obtain ⟨j, u, todo1, hpop⟩ := pop_lt todo (sched.headD 0 % activeLanes todo) (Nat.mod_lt _ hact)
    obtain ⟨hp, -, -⟩ := pop_some _ _ _ _ _ hpop
    have hlen : todo1.flatten.length = fuel := by
      have := hp.length_eq
      simp only [List.length_cons] at this
      omega
    simp only [executionOrder, hpop]
    exact ((executionOrder_perm fuel sched.tail todo1 hlen).cons u).trans hp.symm

theorem runSeq_keys : ∀ (us : List workerInput) (st : State),
    (runSeq us st).1.map Prod.fst = us.map (·.containerID)
  | [], _ => rfl
  | u :: us, st => by
    simp only [runSeq, List.map_cons]
    rw [runSeq_keys us]

theorem runWorkers_eq : ∀ (fuel : Nat) (sched : List Nat) (todo : List (List workerInput))
    (bufs : List ResultSet) (st : State), bufs.length = todo.length →
      (runWorkers fuel sched todo bufs st).2 = (runSeq (executionOrder fuel sched todo) st).2
      ∧ (runWorkers fuel sched todo bufs st).1.flatten.Perm
          (bufs.flatten ++ (runSeq (executionOrder fuel sched todo) st).1)
  | 0, _, _, bufs, st, _ => by simp [runWorkers, executionOrder, runSeq]
  | fuel + 1, sched, todo, bufs, st, hlen => by
    cases hpop : pop (sched.headD 0 % activeLanes todo) todo with
    | none =>
      simp only [runWorkers, executionOrder, hpop]
      simp [runSeq]
    | some r =>
      obtain ⟨j, u, todo1⟩ := r
      obtain ⟨-, hl1, hj⟩ := pop_some _ _ _ _ _ hpop
      have hlen1 : (modifyAt (· ++ [(u.containerID, (u.parallelFunc st).1)]) j bufs).length
          = todo1.length := by
        rw [modifyAt_length, hlen, hl1]
      obtain ⟨ih1, ih2⟩ := runWorkers_eq fuel sched.tail todo1 _ (u.parallelFunc st).2 hlen1
      simp only [runWorkers, executionOrder, runSeq, hpop]
      refine ⟨ih1, ih2.trans ?_⟩
      have hm := modifyAt_append_flatten (u.containerID, (u.parallelFunc st).1) j bufs
        (by rw [hlen]; exact hj)
      refine (hm.append_right _).trans ?_
      simp

/-! ## The worker pool: the result map -/

theorem ResultSet.mem_keys_insert (k : String) (v : Option Err) (k1 : String) :
    ∀ m : ResultSet, k1 ∈ (m.insert k v).keys ↔ k1 = k ∨ k1 ∈ m.keys
  | [] => by simp [ResultSet.insert, ResultSet.keys]
  | (k2, v2) :: m => by
    have ih := ResultSet.mem_keys_insert k v k1 m
    simp only [ResultSet.keys] at ih
    by_cases h : k2 = k
    · subst h
      simp [ResultSet.insert, ResultSet.keys]
    · simp only [ResultSet.insert, h, if_false, ResultSet.keys, List.map_cons, List.mem_cons, ih]
      tauto

theorem ResultSet.nodup_insert (k : String) (v : Option Err) :
    ∀ m : ResultSet, m.keys.Nodup → (m.insert k v).keys.Nodup
  | [], _ => by simp [ResultSet.insert, ResultSet.keys]
  | (k2, v2) :: m, h => by
    simp only [ResultSet.keys, List.map_cons, List.nodup_cons] at h
    by_cases hk : k2 = k
    · subst hk
      simpa [ResultSet.insert, ResultSet.keys] using h
    · have ih := ResultSet.nodup_insert k v m h.2
      have hm := ResultSet.mem_keys_insert k v k2 m
      simp only [ResultSet.insert, hk, if_false, ResultSet.keys, List.map_cons, List.nodup_cons]
      simp only [ResultSet.keys] at ih hm
      refine ⟨?_, ih⟩
      rw [hm]
      rintro (h1 | h1)
      · exact hk h1
      · exact h.1 h1

theorem ResultSet.get?_insert (k : String) (v : Option Err) (k1 : String) :
    ∀ m : ResultSet, (m.insert k v).get? k1 = if k1 = k then some v else m.get? k1
  | [] => by
    by_cases h : k1 = k
    · simp [ResultSet.insert, ResultSet.get?, h]
    · have h1 : ¬ k = k1 := fun e => h e.symm
      simp [ResultSet.insert, ResultSet.get?, h, h1]
  | (k2, v2) :: m => by
    have ih := ResultSet.get?_insert k v k1 m
    by_cases hk : k2 = k
    · subst hk
      by_cases h : k1 = k2
      · simp [ResultSet.insert, ResultSet.get?, h]
      · have h1 : ¬ k2 = k1 := fun e => h e.symm
        simp [ResultSet.insert, ResultSet.get?, h, h1]
    · simp only [ResultSet.insert, hk, if_false, ResultSet.get?, ih]
      by_cases h2 : k2 = k1
      · have h3 : ¬ k1 = k := fun e => hk (h2.trans e)
        simp [h2, h3]
      · simp [h2]

theorem insertAll_keys (k : String) : ∀ (L : List (String × Option Err)) (m : ResultSet),
    k ∈ (ResultSet.insertAll m L).keys ↔ k ∈ m.keys ∨ k ∈ L.map Prod.fst
  | [], m => by simp [ResultSet.insertAll]
  | kv :: L, m => by
    simp only [ResultSet.insertAll, List.foldl_cons, List.map_cons, List.mem_cons]
    have ih := insertAll_keys k L (ResultSet.insert m kv.1 kv.2)
    simp only [ResultSet.insertAll] at ih
    rw [ih, ResultSet.mem_keys_insert]
    tauto

theorem insertAll_nodup : ∀ (L : List (String × Option Err)) (m : ResultSet),
    m.keys.Nodup → (ResultSet.insertAll m L).keys.Nodup
  | [], _, h => h
  | kv :: L, m, h => by
    exact insertAll_nodup L _ (ResultSet.nodup_insert _ _ m h)

theorem insertAll_get?_of_not_mem (k : String) : ∀ (L : List (String × Option Err))
    (m : ResultSet), k ∉ L.map Prod.fst →
      (ResultSet.insertAll m L).get? k = m.get? k
  | [], _, _ => rfl
  | kv :: L, m, h => by
    simp only [List.map_cons, List.mem_cons, not_or] at h
    have ih := insertAll_get?_of_not_mem k L (ResultSet.insert m kv.1 kv.2) h.2
    simp only [ResultSet.insertAll, List.foldl_cons] at ih ⊢
    rw [ih, ResultSet.get?_insert]
    simp [h.1]

theorem insertAll_get? : ∀ (L : List (String × Option Err)) (m : ResultSet)
    (k : String) (v : Option Err), (L.map Prod.fst).Nodup → (k, v) ∈ L →
      (ResultSet.insertAll m L).get? k = some v
  | [], _, _, _, _, h => by simp at h
  | kv :: L, m, k, v, hnd, h => by
    simp only [List.map_cons, List.nodup_cons] at hnd
    rcases List.mem_cons.1 h with h1 | h1
    · subst h1
      have h2 := insertAll_get?_of_not_mem k L (ResultSet.insert m k v) hnd.1
      simp only [ResultSet.insertAll, List.foldl_cons] at h2 ⊢
      rw [h2, ResultSet.get?_insert]
      simp
    · exact insertAll_get? L (ResultSet.insert m kv.1 kv.2) k v hnd.2 h1

/-- What the pool of the specification computes: its final state is that of
invoking the units one by one in the order `executionOrder`, and its result
map is built from a permutation of the outcomes of that run. -/
theorem pool_eq (sched merge : List Nat) (workers : Int) (u : workerInput)
    (us : List workerInput) (st : State) :
    ∃ L : List (String × Option Err),
      L.Perm (runSeq (executionOrder (u :: us).length sched
          (deal 0 (u :: us) (List.replicate (clampLimit workers) []))) st).1
      ∧ (parallelExecuteWorkerPool sched merge workers (u :: us) st).1 =
          ResultSet.insertAll [] L
      ∧ (parallelExecuteWorkerPool sched merge workers (u :: us) st).2 =
          (runSeq (executionOrder (u :: us).length sched
            (deal 0 (u :: us) (List.replicate (clampLimit workers) []))) st).2 := by
  obtain ⟨h1, h2⟩ := runWorkers_eq (u :: us).length sched
    (deal 0 (u :: us) (List.replicate (clampLimit workers) []))
    (List.replicate (clampLimit workers) []) st (by simp [deal_length])
  refine ⟨(orderBy merge (runWorkers (u :: us).length sched
    (deal 0 (u :: us) (List.replicate (clampLimit workers) []))
    (List.replicate (clampLimit workers) []) st).1).flatten, ?_, ?_, ?_⟩
  · refine ((orderBy_perm merge _).flatten).trans (h2.trans ?_)
    simp
  · simp only [parallelExecuteWorkerPool, mergeBuffers]
  · simp only [parallelExecuteWorkerPool]
    exact h1

theorem poolOrder_perm (sched : List Nat) (workers : Int) (units : List workerInput) :
    (poolOrder sched workers units).Perm units := by
  unfold poolOrder
  have hpos : 0 < (List.replicate (clampLimit workers) ([] : List workerInput)).length := by
    unfold clampLimit
    split
    · simp
    · simp; omega
  have hd := deal_flatten units 0 (List.replicate (clampLimit workers) []) hpos
  have hd1 : (deal 0 units (List.replicate (clampLimit workers) [])).flatten.Perm units := by
    simpa using hd
  exact (executionOrder_perm units.length sched _ hd1.length_eq).trans hd1

theorem pool_entries (sched merge : List Nat) (workers : Int) (units : List workerInput)
    (st : State) :
    ∃ L : List (String × Option Err),
      L.Perm (runSeq (poolOrder sched workers units) st).1
      ∧ (parallelExecuteWorkerPool sched merge workers units st).1 = ResultSet.insertAll [] L
      ∧ (parallelExecuteWorkerPool sched merge workers units st).2 =
          (runSeq (poolOrder sched workers units) st).2 := by
  cases units with
  | nil => exact ⟨[], by simp [poolOrder, executionOrder, runSeq], rfl, rfl⟩
  | cons u us => exact pool_eq sched merge workers u us st

/-- C6. For every list of work units, every concurrency limit, every
interleaving of the workers and every merge order, the result map the pool
returns has exactly the submitted identities as its keys: no key occurs
twice, a string is a key if and only if it is the identity of a submitted
unit, the identity of every submitted unit is the key of exactly one entry,
and when the identities are pairwise distinct the keys are a permutation of
them and there are as many entries as units. -/
theorem pool_keys_are_the_identities (sched merge : List Nat) (workers : Int)
    (units : List workerInput) (st : State) :
    (parallelExecuteWorkerPool sched merge workers units st).1.keys.Nodup
      ∧ (∀ k, k ∈ (parallelExecuteWorkerPool sched merge workers units st).1.keys
            ↔ k ∈ units.map (·.containerID))
      ∧ (∀ u ∈ units,
          (parallelExecuteWorkerPool sched merge workers units st).1.keys.count u.containerID = 1)
      ∧ ((units.map (·.containerID)).Nodup →
          (parallelExecuteWorkerPool sched merge workers units st).1.keys.Perm
            (units.map (·.containerID))
          ∧ (parallelExecuteWorkerPool sched merge workers units st).1.length = units.length) := by
  obtain ⟨L, hL, hrs, -⟩ := pool_entries sched merge workers units st
  have hnd : (parallelExecuteWorkerPool sched merge workers units st).1.keys.Nodup := by
    rw [hrs]
    exact insertAll_nodup L [] (by simp [ResultSet.keys])
  have hkeys : ∀ k, k ∈ (parallelExecuteWorkerPool sched merge workers units st).1.keys
      ↔ k ∈ units.map (·.containerID) := by
    intro k
    rw [hrs, insertAll_keys]
    have h1 : (L.map Prod.fst).Perm ((poolOrder sched workers units).map (·.containerID)) := by
      rw [← runSeq_keys _ st]
      exact hL.map _
    have h2 := (poolOrder_perm sched workers units).map (·.containerID)
    simp only [ResultSet.keys, List.map_nil, List.not_mem_nil, false_or]
    exact (h1.trans h2).mem_iff
  refine ⟨hnd, hkeys, fun u hu => ?_, fun hu => ?_⟩
  · exact List.count_eq_one_of_mem hnd ((hkeys _).2 (List.mem_map.2 ⟨u, hu, rfl⟩))
  have hp := (List.perm_ext_iff_of_nodup hnd hu).2 hkeys
  refine ⟨hp, ?_⟩
  have := hp.length_eq
  simpa [ResultSet.keys] using this

theorem pool_keys_are_the_identities_witness :
    (parallelExecuteWorkerPool [1, 0, 0] [1] 2 scenario idle).1.keys.Perm ["c1", "c2", "c3"]
      ∧ (parallelExecuteWorkerPool [1, 0, 0] [1] 2 scenario idle).1.length = 3 :=
  (pool_keys_are_the_identities [1, 0, 0] [1] 2 scenario idle).2.2.2 (by decide)

/-- C7. The pool is fail-open.  For work units with pairwise distinct
identities, whatever the limit, the interleaving and the merge order: the
operations the pool invokes are a permutation of the submitted units, so each
is invoked exactly once whether or not another one failed; the pool leaves
the state that invoking them one by one in that order leaves; and the result
map holds, under the identity of every unit, the outcome that the operation of
that unit returned in this run: its error if it failed, success otherwise. -/
theorem pool_is_fail_open (sched merge : List Nat) (workers : Int)
    (units : List workerInput) (st : State)
    (hunique : (units.map (·.containerID)).Nodup) :
    (poolOrder sched workers units).Perm units
      ∧ (parallelExecuteWorkerPool sched merge workers units st).2
          = (runSeq (poolOrder sched workers units) st).2
      ∧ (runSeq (poolOrder sched workers units) st).1.map Prod.fst
          = (poolOrder sched workers units).map (·.containerID)
      ∧ ∀ entry ∈ (runSeq (poolOrder sched workers units) st).1,
          (parallelExecuteWorkerPool sched merge workers units st).1.get? entry.1
            = some entry.2 := by
  obtain ⟨L, hL, hrs, hst⟩ := pool_entries sched merge workers units st
  refine ⟨poolOrder_perm sched workers units, hst, runSeq_keys _ st, ?_⟩
  intro entry hmem
  rw [hrs]
  have h1 : (L.map Prod.fst).Perm (units.map (·.containerID)) := by
    refine (hL.map _).trans ?_
    rw [runSeq_keys _ st]
    exact (poolOrder_perm sched workers units).map _
  exact insertAll_get? L [] entry.1 entry.2 (h1.nodup_iff.2 hunique) (hL.symm.subset hmem)

theorem pool_is_fail_open_witness :
    (parallelExecuteWorkerPool [1, 0, 0] [1] 2 scenario idle).1.get? "c2"
        = some (some (.text "busy"))
      ∧ (parallelExecuteWorkerPool [1, 0, 0] [1] 2 scenario idle).1.get? "c1" = some none
      ∧ (parallelExecuteWorkerPool [1, 0, 0] [1] 2 scenario idle).1.get? "c3" = some none :=
  ⟨(pool_is_fail_open [1, 0, 0] [1] 2 scenario idle (by decide)).2.2.2
      ("c2", some (.text "busy")) (by decide),
   (pool_is_fail_open [1, 0, 0] [1] 2 scenario idle (by decide)).2.2.2 ("c1", none) (by decide),
   (pool_is_fail_open [1, 0, 0] [1] 2 scenario idle (by decide)).2.2.2 ("c3", none) (by decide)⟩

/-! ## The pool of the specification inside `rmCmd` -/

theorem deleteFunc_state (X : Externals) (c : Context) (st : State) :
    (deleteFunc X c st).2 =
      { st with log := st.log ++ match st.container with
                                 | some last => [Event.RemoveContainer last (c.Bool "force")]
                                 | none => [] } := by
  obtain ⟨k, log⟩ := st
  cases k with
  | none => simp [deleteFunc]
  | some last => simp [deleteFunc, RemoveContainer, State.emit]

theorem runSeq_deleteFuncs (X : Externals) (c : Context) : ∀ (us : List workerInput) (st : State),
    (∀ u ∈ us, u.parallelFunc = deleteFunc X c) →
      (runSeq us st).2 =
        { st with log := st.log ++ match st.container with
                                   | some last =>
                                     List.replicate us.length
                                       (Event.RemoveContainer last (c.Bool "force"))
                                   | none => [] }
  | [], st, _ => by
    obtain ⟨k, log⟩ := st
    cases k <;> simp [runSeq]
  | u :: us, st, h => by
    have hu : u.parallelFunc = deleteFunc X c := h u (List.mem_cons_self _ _)
    have ih := runSeq_deleteFuncs X c us (deleteFunc X c st).2
      (fun v hv => h v (List.mem_cons_of_mem _ hv))
    obtain ⟨k, log⟩ := st
    cases k with
    | none =>
      simp only [deleteFunc_state] at ih
      simp only [runSeq, hu, ih, deleteFunc_state]
      simp
    | some last =>
      simp only [deleteFunc_state] at ih
      simp only [runSeq, hu, ih, deleteFunc_state]
      simp [List.replicate_succ]

theorem poolCall_deleteFuncs (X : Externals) (c : Context) (sched merge : List Nat)
    (NumCPU : Int) (delContainers : List Container) (st : State) :
    (poolCall (parallelExecuteWorkerPool sched merge) NumCPU
        (delContainers.map (unitFor X c)) st).2 =
      { st with log := st.log
          ++ [Event.parallelExecuteWorkerPool (NumCPU * 3) (delContainers.map Container.ID)]
          ++ match st.container with
             | some last =>
               List.replicate delContainers.length (Event.RemoveContainer last (c.Bool "force"))
             | none => [] } := by
  obtain ⟨L, -, -, hst⟩ := pool_entries sched merge (NumCPU * 3) (delContainers.map (unitFor X c))
    (st.emit (.parallelExecuteWorkerPool (NumCPU * 3)
      ((delContainers.map (unitFor X c)).map (·.containerID))))
  have hperm := poolOrder_perm sched (NumCPU * 3) (delContainers.map (unitFor X c))
  have hall : ∀ u ∈ poolOrder sched (NumCPU * 3) (delContainers.map (unitFor X c)),
      u.parallelFunc = deleteFunc X c := by
    intro u hu
    obtain ⟨k, -, rfl⟩ := List.mem_map.1 (hperm.subset hu)
    rfl
  unfold poolCall
  rw [hst, runSeq_deleteFuncs X c _ _ hall, hperm.length_eq]
  have hids : (delContainers.map (unitFor X c)).map (·.containerID)
      = delContainers.map Container.ID := by
    simp [unitFor]
  simp [State.emit, hids]

/-! ## The log of the body of `rmCmd` -/

theorem lookupEvents_quiet (rs : List (String × Except Err Container)) :
    ∀ e ∈ rs.flatMap lookupEvents, isShutdown e = false ∧ isGetRuntime e = false := by
  intro e he
  obtain ⟨r, -, hr⟩ := List.mem_flatMap.1 he
  obtain ⟨i, res⟩ := r
  cases res with
  | error err =>
    simp only [lookupEvents, List.mem_cons, List.mem_singleton, List.not_mem_nil, or_false] at hr
    rcases hr with rfl | rfl <;> exact ⟨rfl, rfl⟩
  | ok k =>
    simp only [lookupEvents, List.mem_singleton] at hr
    subst hr
    exact ⟨rfl, rfl⟩

theorem selectContainers_log (X : Externals) (c : Context) (st : State) :
    ∃ evs, (selectContainers X c st).2 = { st with log := st.log ++ evs }
      ∧ ∀ e ∈ evs, isShutdown e = false ∧ isGetRuntime e = false := by
  unfold selectContainers
  cases c.Bool "all" with
  | true =>
    refine ⟨[.GetContainers], ?_, by simp [isShutdown, isGetRuntime]⟩
    cases X.GetContainers st.log <;> simp [State.emit]
  | false =>
    cases c.Bool "latest" with
    | true =>
      refine ⟨[.GetLatestContainer], ?_, by simp [isShutdown, isGetRuntime]⟩
      cases X.GetLatestContainer st.log <;> simp [State.emit]
    | false =>
      refine ⟨(lookups X c.Args st.log).flatMap lookupEvents, ?_, lookupEvents_quiet _⟩
      simp [lookupLoop_eq]

theorem beforePool_log (X : Externals) (c : Context) (st : State) :
    ∃ evs, (beforePool X c st).2.log = st.log ++ evs
      ∧ ∀ e ∈ evs, isShutdown e = false ∧ isGetRuntime e = false := by
  unfold beforePool
  split
  · exact ⟨[], by simp, by simp⟩
  · split
    · exact ⟨[], by simp, by simp⟩
    · obtain ⟨evs, h1, h2⟩ := selectContainers_log X c st
      refine ⟨evs, ?_, h2⟩
      rcases hs : selectContainers X c st with ⟨res, st1⟩
      rw [hs] at h1
      simp only at h1
      cases res with
      | error err => simp [h1]
      | ok p => simp [buildDeleteFuncs_eq, h1]

theorem beforePool_container (X : Externals) (c : Context) (st st2 : State)
    (deleteFuncs : List workerInput) (lastError : Option Err)
    (h : beforePool X c st = (.ok (deleteFuncs, lastError), st2)) :
    ∃ delContainers : List Container, deleteFuncs = delContainers.map (unitFor X c)
      ∧ st2.container = match delContainers.getLast? with
                        | some last => some last
                        | none => st.container := by
  obtain ⟨-, -, dels, st1, hs, hd, hst⟩ := beforePool_ok X c st st2 deleteFuncs lastError h
  obtain ⟨evs, h1, -⟩ := selectContainers_log X c st
  rw [hs] at h1
  simp only at h1
  refine ⟨dels, hd, ?_⟩
  rw [hst, h1]

theorem rmBody_log (X : Externals) (sched merge : List Nat) (NumCPU : Int) (iter : List Nat)
    (c : Context) (st : State) :
    ∃ evs, (rmBody X (parallelExecuteWorkerPool sched merge) NumCPU iter c st).2.log
        = st.log ++ evs
      ∧ ∀ e ∈ evs, isShutdown e = false ∧ isGetRuntime e = false := by
  obtain ⟨evs1, h1, hq1⟩ := beforePool_log X c st
  unfold rmBody
  rcases hb : beforePool X c st with ⟨res, st1⟩
  rw [hb] at h1
  simp only at h1
  cases res with
  | error err => exact ⟨evs1, h1, hq1⟩
  | ok p =>
    obtain ⟨deleteFuncs, lastError⟩ := p
    obtain ⟨dels, rfl, -⟩ := beforePool_container X c st st1 _ lastError hb
    simp only [poolAndReport, reportLoop_state, poolCall_deleteFuncs, h1]
    refine ⟨evs1 ++ [Event.parallelExecuteWorkerPool (NumCPU * 3) (dels.map Container.ID)]
      ++ (match st1.container with
          | some last => List.replicate dels.length (Event.RemoveContainer last (c.Bool "force"))
          | none => [])
      ++ (orderBy iter (poolCall (parallelExecuteWorkerPool sched merge) NumCPU
            (dels.map (unitFor X c)) st1).1).map (fun p => Event.Stdout (reportLine p)),
      by simp, ?_⟩
    intro e he
    simp only [List.mem_append, List.mem_singleton, List.mem_map] at he
    rcases he with ((he | rfl) | he) | ⟨p, -, rfl⟩
    · exact hq1 e he
    · exact ⟨rfl, rfl⟩
    · cases hk : st1.container with
      | none => rw [hk] at he; simp at he
      | some last =>
        rw [hk] at he
        obtain rfl := List.eq_of_mem_replicate he
        exact ⟨rfl, rfl⟩
    · exact ⟨rfl, rfl⟩

/-- C5. The container runtime is a scoped resource of `rmCmd` (with the pool
of the specification, for every schedule, merge order and map order): the
runtime is acquired at most once; when flag validation and acquisition
succeed, the log of the invocation ends with `Shutdown(false)` and contains no
other shutdown, whatever path the body took, so the shutdown happens exactly
once and after every lookup, removal and report; when acquisition fails,
`rmCmd` returns that error wrapped with "could not get runtime" after the flag
validation and the acquisition attempt alone; and when flag validation fails
nothing is acquired. -/
theorem rmCmd_runtime_is_scoped (X : Externals) (sched merge : List Nat) (NumCPU : Int)
    (iter : List Nat) (c : Context) :
    ((rmCmd X (parallelExecuteWorkerPool sched merge) NumCPU iter c).2.filter
        isGetRuntime).length ≤ 1
      ∧ (X.validateFlags c = none → X.GetRuntime c = none →
          ∃ front, (rmCmd X (parallelExecuteWorkerPool sched merge) NumCPU iter c).2
              = front ++ [.Shutdown false]
            ∧ front.filter isShutdown = [])
      ∧ (∀ err, X.validateFlags c = none → X.GetRuntime c = some err →
          rmCmd X (parallelExecuteWorkerPool sched merge) NumCPU iter c
            = (some (errors.Wrapf err "could not get runtime"), [.validateFlags, .GetRuntime]))
      ∧ (∀ err, X.validateFlags c = some err →
          rmCmd X (parallelExecuteWorkerPool sched merge) NumCPU iter c
            = (some err, [.validateFlags])) := by
  obtain ⟨evs, hlog, hq⟩ := rmBody_log X sched merge NumCPU iter c acquired
  have hs : evs.filter isShutdown = [] :=
    List.filter_eq_nil_iff.2 fun e he => by simp [(hq e he).1]
  have hg : evs.filter isGetRuntime = [] :=
    List.filter_eq_nil_iff.2 fun e he => by simp [(hq e he).2]
  refine ⟨?_, ?_, ?_, ?_⟩
  · cases hv : X.validateFlags c with
    | some err => simp [rmCmd, hv, isGetRuntime]
    | none =>
      cases hr : X.GetRuntime c with
      | some err => simp [rmCmd, hv, hr, isGetRuntime]
      | none =>
        simp only [rmCmd, hv, hr, hlog]
        simp [List.filter_append, hg, acquired, isGetRuntime]
  · intro hv hr
    refine ⟨acquired.log ++ evs, ?_, ?_⟩
    · simp only [rmCmd, hv, hr, hlog]
    · simp [List.filter_append, hs, acquired, isShutdown]
  · intro err hv hr
    simp only [rmCmd, hv, hr]
  · intro err hv
    simp only [rmCmd, hv]

theorem rmCmd_runtime_is_scoped_witness :
    ∃ front, (rmCmd twoContainers (parallelExecuteWorkerPool [1] []) 1 [1] rmAX).2
        = front ++ [.Shutdown false]
      ∧ front.filter isShutdown = [] :=
  (rmCmd_runtime_is_scoped twoContainers [1] [] 1 [1] rmAX).2.1 rfl rfl

theorem found_none_notFound (L : List (String × Except Err Container))
    (h : ∃ r ∈ L, found r = none) : (L.filterMap notFound).getLast? ≠ none := by
  obtain ⟨⟨i, res⟩, hmem, hf⟩ := h
  cases res with
  | ok k => simp [found] at hf
  | error err =>
    have hin : errors.Wrapf err ("unable to find container " ++ i) ∈ L.filterMap notFound :=
      List.mem_filterMap.2 ⟨(i, .error err), hmem, rfl⟩
    intro hnone
    rw [List.getLast?_eq_none_iff] at hnone
    rw [hnone] at hin
    simp at hin

theorem beforePool_lookups (X : Externals) (c : Context) (st : State)
    (hall : c.Bool "all" = false) (hlat : c.Bool "latest" = false) (hargs : c.Args ≠ []) :
    beforePool X c st =
      (.ok (((lookups X c.Args st.log).filterMap found).map (unitFor X c),
            ((lookups X c.Args st.log).filterMap notFound).getLast?),
       { container := match ((lookups X c.Args st.log).filterMap found).getLast? with
                      | some last => some last
                      | none => st.container,
         log := st.log ++ (lookups X c.Args st.log).flatMap lookupEvents }) := by
  have h0 : (c.Args.length == 0) = false := by
    cases hc : c.Args with
    | nil => exact absurd hc hargs
    | cons a l => rfl
  simp only [beforePool, hall, hlat, h0, selectContainers, lookupLoop_eq, buildDeleteFuncs_eq]
  cases ((lookups X c.Args st.log).filterMap notFound).getLast? <;> simp

/-- C9. Without `--all` and `--latest` and with at least one argument, a
failed lookup does not abort `rmCmd`.  The pool call is reached; there is one
lookup per argument, in argument order (`lookups`), and these are all the
lookups in the log of the invocation; the work units submitted are those of
the containers whose lookup succeeded, in argument order, and the pool is
called with their IDs; and if some lookup failed `rmCmd` returns a non-nil
error whatever the pool returns. -/
theorem rmCmd_continues_after_failed_lookup (X : Externals) (NumCPU : Int) (iter : List Nat)
    (c : Context)
    (hv : X.validateFlags c = none) (hr : X.GetRuntime c = none)
    (hall : c.Bool "all" = false) (hlat : c.Bool "latest" = false) (hargs : c.Args ≠ []) :
    (∃ st, beforePool X c acquired =
        (.ok (((lookups X c.Args acquired.log).filterMap found).map (unitFor X c),
              ((lookups X c.Args acquired.log).filterMap notFound).getLast?), st)
        ∧ st.log = acquired.log ++ (lookups X c.Args acquired.log).flatMap lookupEvents)
      ∧ (lookups X c.Args acquired.log).map Prod.fst = c.Args
      ∧ (∀ sched merge,
          (rmCmd X (parallelExecuteWorkerPool sched merge) NumCPU iter c).2.filterMap lookedUp
            = c.Args)
      ∧ (∀ sched merge,
          Event.parallelExecuteWorkerPool (NumCPU * 3)
              (((lookups X c.Args acquired.log).filterMap found).map Container.ID)
            ∈ (rmCmd X (parallelExecuteWorkerPool sched merge) NumCPU iter c).2)
      ∧ ((∃ r ∈ lookups X c.Args acquired.log, found r = none) →
          ∀ pool : Pool, (rmCmd X pool NumCPU iter c).1 ≠ none) := by
  have hb := beforePool_lookups X c acquired hall hlat hargs
  refine ⟨⟨_, hb, rfl⟩, lookups_args X c.Args _, ?_, ?_, ?_⟩
  · intro sched merge
    rw [rmCmd_reaching_pool X _ NumCPU iter c _ _ _ hv hr hb]
    simp only [reportLoop_state, poolCall_deleteFuncs, List.filterMap_append,
      lookedUp_lookupEvents, lookups_args]
    have h1 : ∀ l : List Event, (∀ e ∈ l, lookedUp e = none) → l.filterMap lookedUp = [] :=
      fun l hl => List.filterMap_eq_nil_iff.2 hl
    rw [h1 acquired.log (by simp [acquired, lookedUp]), h1 [_] (by simp [lookedUp]), h1 _ ?_,
      h1 _ ?_]
    · simp [lookedUp]
    · intro e he
      obtain ⟨p, -, rfl⟩ := List.mem_map.1 he
      rfl
    · intro e he
      split at he
      · obtain rfl := List.eq_of_mem_replicate he
        rfl
      · simp at he
  · intro sched merge
    rw [rmCmd_reaching_pool X _ NumCPU iter c _ _ _ hv hr hb]
    simp [reportLoop_state, poolCall_deleteFuncs]
  · intro hfail pool
    have hne := found_none_notFound _ hfail
    rw [rmCmd_reaching_pool X pool NumCPU iter c _ _ _ hv hr hb, reportLoop_result]
    cases lastFailure (orderBy iter (poolCall pool NumCPU _ _).1) with
    | some err => simp
    | none => exact hne

theorem rmCmd_continues_after_failed_lookup_witness :
    (rmCmd twoContainers (parallelExecuteWorkerPool [] []) 1 [] rmAX).2.filterMap lookedUp
        = ["a", "x"]
      ∧ Event.parallelExecuteWorkerPool 3 ["id1"]
          ∈ (rmCmd twoContainers (parallelExecuteWorkerPool [] []) 1 [] rmAX).2
      ∧ (rmCmd twoContainers (parallelExecuteWorkerPool [] []) 1 [] rmAX).1 ≠ none :=
  ⟨(rmCmd_continues_after_failed_lookup twoContainers 1 [] rmAX rfl rfl rfl rfl
      (by decide)).2.2.1 [] [],
   (rmCmd_continues_after_failed_lookup twoContainers 1 [] rmAX rfl rfl rfl rfl
      (by decide)).2.2.2.1 [] [],
   (rmCmd_continues_after_failed_lookup twoContainers 1 [] rmAX rfl rfl rfl rfl
      (by decide)).2.2.2.2 ⟨("x", .error (.text "no container x")),
        List.Mem.tail _ (List.Mem.head _), rfl⟩ _⟩

/-! ## Scenarios -/

theorem rmCmd_fails_when_a_removal_failed_witness :
    (rmCmd threeContainers scenarioPool 1 [2, 0] rmAll).1 ≠ none :=
  rmCmd_fails_when_a_removal_failed threeContainers scenarioPool 1 [2, 0] rmAll
    [unitFor threeContainers rmAll ⟨1, "c1"⟩, unitFor threeContainers rmAll ⟨2, "c2"⟩,
     unitFor threeContainers rmAll ⟨3, "c3"⟩]
    none { container := some ⟨3, "c3"⟩, log := [.validateFlags, .GetRuntime, .GetContainers] }
    rfl rfl rfl ⟨("c2", some (.text "busy")), by decide, by decide⟩

theorem rmCmd_return_value_witness :
    (rmCmd twoContainers (parallelExecuteWorkerPool [] []) 1 [] rmAX).1 =
      some (errors.Wrapf (.text "no container x") "unable to find container x") :=
  (rmCmd_return_value twoContainers (parallelExecuteWorkerPool [] []) 1 [] rmAX
    [unitFor twoContainers rmAX ⟨1, "id1"⟩]
    (some (errors.Wrapf (.text "no container x") "unable to find container x"))
    { container := some ⟨1, "id1"⟩,
      log := [.validateFlags, .GetRuntime, .LookupContainer "a", .LookupContainer "x",
              .Stderr "no container x"] }
    rfl rfl rfl).1

/-- The closure of every work unit reads the range variable when it runs:
invoked after the loop of lines 98-107 has finished, the operation of every
unit removes the last container of the list, whatever the identity of the
unit. -/
theorem deleteFuncs_remove_the_last_container (X : Externals) (c : Context)
    (delContainers : List Container) (last : Container) (st : State)
    (hlast : delContainers.getLast? = some last) :
    ∀ u ∈ (buildDeleteFuncs X c delContainers [] st).1,
      (u.parallelFunc (buildDeleteFuncs X c delContainers [] st).2).2.log
        = st.log ++ [.RemoveContainer last (c.Bool "force")] := by
  intro u hu
  simp only [buildDeleteFuncs_eq, List.nil_append, hlast] at hu ⊢
  obtain ⟨k, -, rfl⟩ := List.mem_map.1 hu
  simp [unitFor, deleteFunc_state]

/-- C1 fails on the code.  For `podman rm a b`, with both containers present,
the two work units have the identities `id1` and `id2`, but the operation of
either unit, invoked after the list has been built, removes container `b`
(`id2`); in the whole invocation `b` is removed twice, `a` never, and `id1` is
nevertheless printed as removed. -/
theorem rmCmd_units_remove_the_last_container :
    (match beforePool twoContainers rmAB acquired with
      | (.ok (deleteFuncs, _), st) =>
        deleteFuncs.map (·.containerID) = ["id1", "id2"]
          ∧ deleteFuncs.map (fun u => (u.parallelFunc st).2.log.getLast?)
              = [some (.RemoveContainer ⟨2, "id2"⟩ false), some (.RemoveContainer ⟨2, "id2"⟩ false)]
      | _ => False)
    ∧ rmCmd twoContainers (parallelExecuteWorkerPool [] []) 1 [] rmAB =
        (some (.text "no container id2"),
         [.validateFlags, .GetRuntime, .LookupContainer "a", .LookupContainer "b",
          .parallelExecuteWorkerPool 3 ["id1", "id2"],
          .RemoveContainer ⟨2, "id2"⟩ false, .RemoveContainer ⟨2, "id2"⟩ false,
          .Stdout "id1", .Stdout "no container id2", .Shutdown false]) := by
  constructor
  · exact ⟨rfl, rfl⟩
  · rfl

/-! ## The schedules cover the execution orders

With a limit of 1 the pool runs the units in submission order; with a limit
of at least the number of units every permutation of the units is the
execution order of some schedule. -/

theorem deal_single {α : Type} : ∀ (us : List α) (i : Nat) (acc : List α),
    deal i us [acc] = [acc ++ us]
  | [], _, acc => by simp [deal]
  | u :: us, i, acc => by
    simp only [deal, List.length_singleton, Nat.mod_one, modifyAt]
    rw [deal_single us]
    simp

theorem executionOrder_single {α : Type} : ∀ (us : List α) (sched : List Nat),
    executionOrder us.length sched [us] = us
  | [], _ => rfl
  | u :: us, sched => by
    have hact : activeLanes [u :: us] = 1 := rfl
    simp only [List.length_cons, executionOrder, hact, Nat.mod_one, pop]
    rw [executionOrder_single us]

theorem poolOrder_sequential (sched : List Nat) (units : List workerInput) :
    poolOrder sched 1 units = units := by
  unfold poolOrder
  have h : clampLimit 1 = 1 := by decide
  rw [h]
  simp only [List.replicate_one]
  rw [deal_single units 0 []]
  exact executionOrder_single units sched

theorem modifyAt_spread {α : Type} (u : α) (rest : List (List α)) : ∀ d : List α,
    modifyAt (· ++ [u]) d.length (d.map (fun u => [u]) ++ [] :: rest)
      = d.map (fun u => [u]) ++ [u] :: rest
  | [] => rfl
  | a :: d => congrArg (List.cons [a]) (modifyAt_spread u rest d)

theorem flatten_singletons {α : Type} : ∀ l : List α, (l.map (fun u => [u])).flatten = l
  | [] => rfl
  | a :: l => congrArg (List.cons a) (flatten_singletons l)

theorem deal_spread {α : Type} : ∀ (us done : List α) (m : Nat), us.length ≤ m →
    deal done.length us (done.map (fun u => [u]) ++ List.replicate m [])
      = (done ++ us).map (fun u => [u]) ++ List.replicate (m - us.length) []
  | [], done, m, _ => by simp [deal]
  | u :: us, done, m, h => by
    obtain ⟨k, rfl⟩ : ∃ k, m = k + 1 := ⟨m - 1, by simp at h; omega⟩
    rw [List.replicate_succ]
    have hmod : done.length % (done.map (fun u => [u]) ++ [] :: List.replicate k ([] : List α)).length
        = done.length := by
      simp only [List.length_append, List.length_map, List.length_cons, List.length_replicate]
      exact Nat.mod_eq_of_lt (by omega)
    have h1 := deal_spread us (done ++ [u]) k (by simpa using h)
    simp only [List.length_append, List.length_singleton, List.map_append, List.map_cons,
      List.map_nil, List.append_assoc, List.singleton_append] at h1
    simp only [deal]
    rw [hmod, modifyAt_spread, h1]
    simp

theorem pop_short {α : Type} : ∀ (lanes : List (List α)) (p : Nat),
    (∀ lane ∈ lanes, lane.length ≤ 1) →
      activeLanes lanes = lanes.flatten.length
      ∧ match pop p lanes with
        | none => takeOut p lanes.flatten = none
        | some (_, u, lanes1) =>
          takeOut p lanes.flatten = some (u, lanes1.flatten)
            ∧ ∀ lane ∈ lanes1, lane.length ≤ 1
  | [], p, _ => by simp [activeLanes, pop, takeOut]
  | [] :: lanes, p, h => by
    obtain ⟨h1, h2⟩ := pop_short lanes p (fun lane hl => h lane (List.mem_cons_of_mem _ hl))
    refine ⟨by simpa [activeLanes] using h1, ?_⟩
    cases hp : pop p lanes with
    | none =>
      rw [hp] at h2
      simpa [pop, hp] using h2
    | some r =>
      obtain ⟨j, u, lanes1⟩ := r
      rw [hp] at h2
      simp only [pop, hp, Option.map_some', List.flatten_cons, List.nil_append]
      refine ⟨h2.1, ?_⟩
      intro lane hl
      rcases List.mem_cons.1 hl with rfl | hl
      · simp
      · exact h2.2 lane hl
  | (u :: us) :: lanes, p, h => by
    have hus : us = [] := by
      have := h (u :: us) (List.mem_cons_self _ _)
      simp only [List.length_cons] at this
      exact List.length_eq_zero.1 (by omega)
    subst hus
    have hrest : ∀ lane ∈ lanes, lane.length ≤ 1 := fun lane hl => h lane (List.mem_cons_of_mem _ hl)
    refine ⟨?_, ?_⟩
    · have := (pop_short lanes 0 hrest).1
      simp only [activeLanes] at this
      simp [activeLanes, this]
    · cases p with
      | zero =>
        simp only [pop]
        refine ⟨rfl, ?_⟩
        intro lane hl
        rcases List.mem_cons.1 hl with rfl | hl
        · simp
        · exact hrest lane hl
      | succ p =>
        obtain ⟨-, h2⟩ := pop_short lanes p hrest
        cases hp : pop p lanes with
        | none =>
          rw [hp] at h2
          simp only [pop, hp, Option.map_none']
          show (takeOut p lanes.flatten).map (fun q => (q.1, u :: q.2)) = none
          rw [h2]
          rfl
        | some r =>
          obtain ⟨j, v, lanes1⟩ := r
          rw [hp] at h2
          simp only [pop, hp, Option.map_some']
          refine ⟨?_, ?_⟩
          · show (takeOut p lanes.flatten).map (fun q => (q.1, u :: q.2)) = _
            rw [h2.1]
            rfl
          intro lane hl
          rcases List.mem_cons.1 hl with rfl | hl
          · simp
          · exact h2.2 lane hl

theorem executionOrder_short {α : Type} : ∀ (fuel : Nat) (sched : List Nat)
    (lanes : List (List α)), (∀ lane ∈ lanes, lane.length ≤ 1) →
      executionOrder fuel sched lanes = orderByFuel fuel sched lanes.flatten
  | 0, _, _, _ => rfl
  | fuel + 1, sched, lanes, h => by
    obtain ⟨h1, h2⟩ := pop_short lanes (sched.headD 0 % activeLanes lanes) h
    simp only [executionOrder, orderByFuel]
    rw [← h1]
    cases hp : pop (sched.headD 0 % activeLanes lanes) lanes with
    | none =>
      rw [hp] at h2
      simp only at h2
      rw [h2]
    | some r =>
      obtain ⟨j, u, lanes1⟩ := r
      rw [hp] at h2
      simp only at h2
      rw [h2.1]
      simp only
      rw [executionOrder_short fuel sched.tail lanes1 h2.2]

theorem poolOrder_onto (workers : Int) (units order : List workerInput)
    (hlimit : units.length ≤ clampLimit workers) (hperm : order.Perm units) :
    ∃ sched, poolOrder sched workers units = order := by
  obtain ⟨sched, hs⟩ := orderBy_onto order units hperm
  refine ⟨sched, ?_⟩
  unfold poolOrder
  have hd := deal_spread units [] (clampLimit workers) hlimit
  simp only [List.length_nil, List.map_nil, List.nil_append] at hd
  rw [hd, executionOrder_short]
  · rw [List.flatten_append, flatten_singletons]
    simpa [orderBy] using hs
  · intro lane hl
    rcases List.mem_append.1 hl with hl | hl
    · obtain ⟨u, -, rfl⟩ := List.mem_map.1 hl
      simp
    · rw [List.eq_of_mem_replicate hl]
      simp

/-! ## Lines on standard output -/

theorem splitLines_line (s : List Char) (hs : newline ∉ s) : ∀ (cur rest : List Char),
    splitLines cur (s ++ newline :: rest) = (cur ++ s) :: splitLines [] rest := by
  induction s with
  | nil => intro cur rest; simp [splitLines]
  | cons ch s ih =>
    intro cur rest
    simp only [List.mem_cons, not_or] at hs
    have hne : ¬ ch = newline := fun e => hs.1 e.symm
    have hstep : splitLines cur (ch :: s ++ newline :: rest)
        = splitLines (cur ++ [ch]) (s ++ newline :: rest) := by
      show splitLines cur (ch :: (s ++ newline :: rest)) = _
      simp only [splitLines, hne, if_false]
    rw [hstep, ih hs.2]
    simp

theorem linesOf_println : ∀ texts : List String, (∀ t ∈ texts, newline ∉ t.data) →
    linesOf (texts.flatMap fun t => t.data ++ [newline]) = texts.map (·.data)
  | [], _ => by simp [linesOf, splitLines]
  | t :: texts, h => by
    have ih := linesOf_println texts (fun s hs => h s (List.mem_cons_of_mem _ hs))
    simp only [linesOf] at ih ⊢
    simp only [List.flatMap_cons, List.append_assoc, List.singleton_append, List.map_cons]
    rw [splitLines_line _ (h t (List.mem_cons_self _ _)), ih]
    simp

theorem stdoutOf_report (entries : List (String × Option Err)) :
    stdoutOf (entries.map fun entry => Event.Stdout (reportLine entry))
      = entries.flatMap fun entry => (reportLine entry).data ++ [newline] := by
  have h : (entries.map fun entry => Event.Stdout (reportLine entry)).filterMap printed
      = entries.map reportLine := by
    induction entries with
    | nil => rfl
    | cons e es ih => simp only [List.map_cons, List.filterMap_cons, printed, ih]
  simp only [stdoutOf, h]
  clear h
  induction entries with
  | nil => rfl
  | cons e es ih => simp only [List.map_cons, List.flatMap_cons, ih]

/-- C3 (amended). The reporting loop makes exactly one call of `fmt.Println`
per entry of the result map, in the order the map is iterated: with the
identity for a successful entry, with the text of the error for a failed one,
and a failed entry does not stop the remaining ones.  The log of the
invocation is the log up to the return of the pool, followed by these calls,
followed by the shutdown, and the enumeration is a permutation of the entries
(as many successful and as many failed ones).  What reaches standard output
is every such text followed by a newline; when none of the printed identities
and error texts contains a newline, the lines on standard output are exactly
these texts, one line per entry: as many identity lines as successful entries
and as many error lines as failed entries. -/
theorem rmCmd_reports_every_entry (X : Externals) (pool : Pool) (NumCPU : Int)
    (iter : List Nat) (c : Context) (deleteFuncs : List workerInput) (lastError : Option Err)
    (st : State)
    (hv : X.validateFlags c = none) (hr : X.GetRuntime c = none)
    (hb : beforePool X c acquired = (.ok (deleteFuncs, lastError), st)) :
    (rmCmd X pool NumCPU iter c).2 =
        (poolCall pool NumCPU deleteFuncs st).2.log
          ++ (orderBy iter (poolCall pool NumCPU deleteFuncs st).1).map
              (fun entry => Event.Stdout (reportLine entry))
          ++ [.Shutdown false]
      ∧ (orderBy iter (poolCall pool NumCPU deleteFuncs st).1).Perm
          (poolCall pool NumCPU deleteFuncs st).1
      ∧ ((orderBy iter (poolCall pool NumCPU deleteFuncs st).1).filter
            (fun entry => entry.2.isNone)).length
          = ((poolCall pool NumCPU deleteFuncs st).1.filter (fun entry => entry.2.isNone)).length
      ∧ ((orderBy iter (poolCall pool NumCPU deleteFuncs st).1).filter
            (fun entry => entry.2.isSome)).length
          = ((poolCall pool NumCPU deleteFuncs st).1.filter (fun entry => entry.2.isSome)).length
      ∧ (∀ cid, reportLine (cid, none) = cid)
      ∧ (∀ cid err, reportLine (cid, some err) = err.Error)
      ∧ stdoutOf ((orderBy iter (poolCall pool NumCPU deleteFuncs st).1).map
            (fun entry => Event.Stdout (reportLine entry)))
          = (orderBy iter (poolCall pool NumCPU deleteFuncs st).1).flatMap
              (fun entry => (reportLine entry).data ++ [newline])
      ∧ ((∀ entry ∈ (poolCall pool NumCPU deleteFuncs st).1,
            newline ∉ (reportLine entry).data) →
          linesOf (stdoutOf ((orderBy iter (poolCall pool NumCPU deleteFuncs st).1).map
              (fun entry => Event.Stdout (reportLine entry))))
            = (orderBy iter (poolCall pool NumCPU deleteFuncs st).1).map
                (fun entry => (reportLine entry).data)
          ∧ (linesOf (stdoutOf ((orderBy iter (poolCall pool NumCPU deleteFuncs st).1).map
              (fun entry => Event.Stdout (reportLine entry))))).length
            = (poolCall pool NumCPU deleteFuncs st).1.length) := by
  rw [rmCmd_reaching_pool X pool NumCPU iter c deleteFuncs lastError st hv hr hb]
  refine ⟨?_, orderBy_perm iter _, ?_, ?_, fun _ => rfl, fun _ _ => rfl, stdoutOf_report _, ?_⟩
  · simp [reportLoop_state]
  · exact ((orderBy_perm iter _).filter _).length_eq
  · exact ((orderBy_perm iter _).filter _).length_eq
  · intro hclean
    have hlines : linesOf (stdoutOf ((orderBy iter (poolCall pool NumCPU deleteFuncs st).1).map
          (fun entry => Event.Stdout (reportLine entry))))
        = (orderBy iter (poolCall pool NumCPU deleteFuncs st).1).map
            (fun entry => (reportLine entry).data) := by
      rw [stdoutOf_report]
      have h := linesOf_println
        ((orderBy iter (poolCall pool NumCPU deleteFuncs st).1).map reportLine) (by
          intro t ht
          obtain ⟨entry, hmem, rfl⟩ := List.mem_map.1 ht
          exact hclean entry ((orderBy_perm iter _).subset hmem))
      simpa [List.flatMap_map, List.map_map, Function.comp_def] using h
    refine ⟨hlines, ?_⟩
    rw [hlines, List.length_map]
    exact (orderBy_perm iter _).length_eq

theorem rmCmd_reports_every_entry_witness :
    (rmCmd threeContainers scenarioPool 1 [2, 0] rmAll).2 =
        [.validateFlags, .GetRuntime, .GetContainers,
         .parallelExecuteWorkerPool 3 ["c1", "c2", "c3"],
         .Stdout "c3", .Stdout "c1", .Stdout "busy", .Shutdown false]
      ∧ linesOf (stdoutOf [.Stdout "c3", .Stdout "c1", .Stdout "busy"])
          = ["c3".data, "c1".data, "busy".data] :=
  ⟨(rmCmd_reports_every_entry threeContainers scenarioPool 1 [2, 0] rmAll
      [unitFor threeContainers rmAll ⟨1, "c1"⟩, unitFor threeContainers rmAll ⟨2, "c2"⟩,
       unitFor threeContainers rmAll ⟨3, "c3"⟩]
      none { container := some ⟨3, "c3"⟩, log := [.validateFlags, .GetRuntime, .GetContainers] }
      rfl rfl rfl).1,
   ((rmCmd_reports_every_entry threeContainers scenarioPool 1 [2, 0] rmAll
      [unitFor threeContainers rmAll ⟨1, "c1"⟩, unitFor threeContainers rmAll ⟨2, "c2"⟩,
       unitFor threeContainers rmAll ⟨3, "c3"⟩]
      none { container := some ⟨3, "c3"⟩, log := [.validateFlags, .GetRuntime, .GetContainers] }
      rfl rfl rfl).2.2.2.2.2.2.2 (by decide)).1⟩

/-- C3 as stated fails: for `podman rm a` where the removal of `a` fails with
the error text "disk", newline, "full", the result map has one entry, a
failed one, the reporting loop makes one call of `fmt.Println`, and standard
output receives two lines. -/
theorem multiline_error_prints_two_lines :
    (poolCall (parallelExecuteWorkerPool [] []) 1 [unitFor diskFullHost rmA ⟨1, "id1"⟩]
        { container := some ⟨1, "id1"⟩,
          log := [.validateFlags, .GetRuntime, .LookupContainer "a"] }).1
        = [("id1", some (.text "disk\nfull"))]
      ∧ (rmCmd diskFullHost (parallelExecuteWorkerPool [] []) 1 [] rmA).2 =
          [.validateFlags, .GetRuntime, .LookupContainer "a",
           .parallelExecuteWorkerPool 3 ["id1"], .RemoveContainer ⟨1, "id1"⟩ false,
           .Stdout "disk\nfull", .Shutdown false]
      ∧ linesOf (stdoutOf (rmCmd diskFullHost (parallelExecuteWorkerPool [] []) 1 [] rmA).2)
          = ["disk".data, "full".data]
      ∧ (linesOf (stdoutOf
          (rmCmd diskFullHost (parallelExecuteWorkerPool [] []) 1 [] rmA).2)).length ≠ 1 := by
  refine ⟨rfl, rfl, rfl, ?_⟩
  decide

end Podman
